import Mathlib

/-!
# safetyhook: VMT hooks (`src/vmt_hook.cpp`)

A shallow embedding of the three hook types of `vmt_hook.cpp` and the
properties of their attach / detach / teardown operations.

Memory model.  Process memory is a total function from addresses to
pointer-sized words.  Every access of the source is a pointer-sized load or
store; the cells of distinct addresses are independent (all accesses are taken
to be aligned).  `p[i]` lives at `p + sizeof(void*) * i`.  For the index that a
caller passes to the table-patch hook, which the code checks against nothing,
that address is computed in 64-bit arithmetic (`tableSlot`); for the indices a
table-duplication hook produces itself inside its private table and the table
it scans, the address stays inside the object (`slot`).

The operating-system services (`is_executable`, `vm_is_writable`, `unprotect`)
and the allocator are external collaborators; they enter as explicit
arguments.
-/

namespace safetyhook

/-- Process memory: the pointer-sized word held at every address.  Addresses
and the words stored at them (pointers) are natural numbers. -/
abbrev Mem := Nat → Nat

/-- The value of `sizeof(void*)`, `sizeof(uint8_t*)`. -/
def ptrSize : Nat := 8

/-- The null pointer. -/
def nullptr : Nat := 0

/-- A pointer-sized store `*a = v`. -/
def Mem.write (m : Mem) (a v : Nat) : Mem :=
  fun x => if x = a then v else m x

/-- The address `&base[i]` of the `i`-th pointer-sized element from `base`, for
an index that stays inside the object `base` points into (the private table of
a `VmtHook`, the table it scans): no wrap-around occurs there. -/
def slot (base : Nat) (i : Nat) : Nat := base + ptrSize * i

/-- The address `&m_pVtable[index]` for the `size_t index` that a caller passes
to `VmtOriginalHook::hook_method` or `remove`.  The index is not checked
against any table length and the address is computed in 64-bit arithmetic, so
it wraps at `2^64`: two indices that differ by a multiple of `2^61` address
the same word. -/
def tableSlot (pVtable index : Nat) : Nat := (pVtable + ptrSize * index) % 2 ^ 64

/-- The operating-system services of `safetyhook/os.hpp` used by the hooks.
`unprotect a n` tells whether `unprotect(a, n)` yields a protection guard
(as opposed to an error). -/
structure OS where
  is_executable : Nat → Bool
  vm_is_writable : Nat → Nat → Bool
  unprotect : Nat → Nat → Bool

/-! ## VmHook -/

/-- The data members of `VmHook`; `m_new_vmt_allocation` is the shared
allocation handle (the data pointer of the allocation it keeps alive). -/
structure VmHook where
  m_original_vm : Nat := nullptr
  m_new_vm : Nat := nullptr
  m_vmt_entry : Nat := nullptr
  m_new_vmt_allocation : Option Nat := none
deriving DecidableEq, Repr

/-- Embedding of `VmHook::destroy` (also the destructor). -/
def VmHook.destroy (h : VmHook) (mem : Mem) : VmHook × Mem :=
  if h.m_original_vm ≠ nullptr then
    let mem1 := if h.m_vmt_entry ≠ nullptr then mem.write h.m_vmt_entry h.m_original_vm else mem
    ({ m_original_vm := nullptr, m_new_vm := nullptr, m_vmt_entry := nullptr,
       m_new_vmt_allocation := none }, mem1)
  else
    (h, mem)

/-- Embedding of `VmHook::operator=(VmHook&&)`: returns the assigned object,
the voided source and the memory. -/
def VmHook.moveAssign (self other : VmHook) (mem : Mem) : VmHook × VmHook × Mem :=
  let r := self.destroy mem
  ({ m_original_vm := other.m_original_vm, m_new_vm := other.m_new_vm,
     m_vmt_entry := other.m_vmt_entry, m_new_vmt_allocation := other.m_new_vmt_allocation },
   { m_original_vm := nullptr, m_new_vm := nullptr, m_vmt_entry := nullptr,
     m_new_vmt_allocation := none },
   r.2)

/-- Embedding of `VmHook::reset`: `*this = {}`, followed by the destruction of
the (voided) temporary. -/
def VmHook.reset (h : VmHook) (mem : Mem) : VmHook × Mem :=
  let r := h.moveAssign {} mem
  let t := r.2.1.destroy r.2.2
  (r.1, t.2)

/-! ## VmtOriginalHook -/

/-- One record of `m_pHookEntries`. -/
structure VmtEntry_t where
  m_nIndex : Nat
  m_pOriginalFunc : Nat
deriving DecidableEq, Repr

/-- The error codes of `VmtOriginalHook::Error`. -/
inductive VmtOriginalHook.Error where
  | BAD_VTABLE
  | BAD_VFUNC
  | NOT_FOUND
  | BAD_ALLOC
deriving DecidableEq, Repr

/-- The data members of `VmtOriginalHook`: the table address and the
collection of entries (front = most recently pushed). -/
structure VmtOriginalHook where
  m_pVtable : Nat := nullptr
  m_pHookEntries : List VmtEntry_t := []
deriving DecidableEq, Repr

/-- Embedding of `VmtOriginalHook::SearchVMT`: the first entry for `index`. -/
def VmtOriginalHook.SearchVMT (h : VmtOriginalHook) (index : Nat) : Option VmtEntry_t :=
  h.m_pHookEntries.find? (fun entry => entry.m_nIndex == index)

/-- Embedding of `VmtOriginalHook::create`: reads slot 0 of the table and
checks that it is an executable address. -/
def VmtOriginalHook.create (os : OS) (mem : Mem) (pVtable : Nat) :
    Except VmtOriginalHook.Error VmtOriginalHook :=
  let ppVtable := pVtable
  if !os.is_executable (mem ppVtable) then
    .error .BAD_VTABLE
  else
    .ok { m_pVtable := ppVtable, m_pHookEntries := [] }

/-- The loop of `VmtOriginalHook::remove`: walks the entries from the front;
at the first entry for `index` it yields that entry and the collection with
that entry erased. -/
def eraseFirst (index : Nat) : List VmtEntry_t → Option (VmtEntry_t × List VmtEntry_t)
  | [] => none
  | e :: es =>
    if e.m_nIndex = index then some (e, es)
    else match eraseFirst index es with
      | none => none
      | some (x, rest) => some (x, e :: rest)

/-- Embedding of `VmtOriginalHook::remove`. -/
def VmtOriginalHook.remove (os : OS) (h : VmtOriginalHook) (mem : Mem) (index : Nat) :
    Except VmtOriginalHook.Error Unit × VmtOriginalHook × Mem :=
  if h.m_pVtable = nullptr then
    (.error .BAD_VTABLE, h, mem)
  else if !os.unprotect (tableSlot h.m_pVtable index) ptrSize then
    (.error .BAD_VFUNC, h, mem)
  else
    match eraseFirst index h.m_pHookEntries with
    | some (it, rest) =>
      (.ok (), { h with m_pHookEntries := rest },
        mem.write (tableSlot h.m_pVtable index) it.m_pOriginalFunc)
    | none => (.error .NOT_FOUND, h, mem)

/-- The loop of `VmtOriginalHook::reset`: for every entry, front to back,
restore the slot when its protection change succeeds. -/
def resetLoop (os : OS) (pVtable : Nat) : List VmtEntry_t → Mem → Mem
  | [], mem => mem
  | pEntry :: rest, mem =>
    if os.unprotect (tableSlot pVtable pEntry.m_nIndex) ptrSize then
      resetLoop os pVtable rest (mem.write (tableSlot pVtable pEntry.m_nIndex) pEntry.m_pOriginalFunc)
    else
      resetLoop os pVtable rest mem

/-- Embedding of `VmtOriginalHook::reset` (also the destructor). -/
def VmtOriginalHook.reset (os : OS) (h : VmtOriginalHook) (mem : Mem) : VmtOriginalHook × Mem :=
  if h.m_pVtable = nullptr then
    (h, mem)
  else
    ({ h with m_pHookEntries := [] }, resetLoop os h.m_pVtable h.m_pHookEntries mem)

/-- Embedding of `VmtOriginalHook::hook_method`.  `std::make_unique` never
yields a null pointer, so the `BAD_ALLOC` return is not reachable.  The
returned `VmHook` has only `m_original_vm` and `m_new_vm` assigned. -/
def VmtOriginalHook.hook_method (os : OS) (h : VmtOriginalHook) (mem : Mem) (index : Nat)
    (new_function : Nat) : Except VmtOriginalHook.Error VmHook × VmtOriginalHook × Mem :=
  if !os.unprotect (tableSlot h.m_pVtable index) ptrSize then
    (.error .BAD_VFUNC, h, mem)
  else
    let h1 : VmtOriginalHook :=
      if (h.SearchVMT index).isNone then
        { h with m_pHookEntries :=
            { m_nIndex := index, m_pOriginalFunc := mem (tableSlot h.m_pVtable index) }
              :: h.m_pHookEntries }
      else h
    let hook : VmHook :=
      { m_original_vm := mem (tableSlot h.m_pVtable index), m_new_vm := new_function }
    (.ok hook, h1, mem.write (tableSlot h.m_pVtable index) new_function)

/-- Call sequences on a `VmtOriginalHook`: one `hook_method` or `remove` call. -/
inductive HookOp where
  | hook_method (index : Nat) (new_function : Nat)
  | remove (index : Nat)
deriving DecidableEq, Repr

/-- The slot index a call addresses. -/
def HookOp.index : HookOp → Nat
  | .hook_method index _ => index
  | .remove index => index

/-- A run of `hook_method` calls, each given as (index, new function). -/
def hookAll (os : OS) (s : VmtOriginalHook × Mem) (calls : List (Nat × Nat)) :
    VmtOriginalHook × Mem :=
  calls.foldl (fun t c => (t.1.hook_method os t.2 c.1 c.2).2) s

/-- The error code carried by a failed `Allocator::allocate`. -/
abbrev AllocatorError := Nat

/-- The error type `VmtHook::Error`; `bad_allocation` wraps the allocator
error. -/
inductive VmtHook.Error where
  | bad_allocation (err : AllocatorError)
deriving DecidableEq, Repr

/-- Modelled from the spec: the class declaration of `VmtHook` (header
`safetyhook/vmt_hook.hpp`) is not among the sources; `m_objects` is the
mapping from attached object address to that object's original table
pointer, kept here as an association list with at most one pair per key.
`m_new_vmt_allocation` is the shared allocation handle (its data pointer),
`m_new_vmt` the address of the private table. -/
structure VmtHook where
  m_objects : List (Nat × Nat) := []
  m_new_vmt_allocation : Option Nat := none
  m_new_vmt : Nat := nullptr
deriving DecidableEq, Repr

/-- The lookup `m_objects.find(object)`: the recorded pointer, if any. -/
def mapFind (m : List (Nat × Nat)) (object : Nat) : Option Nat :=
  (m.find? (fun p => p.1 == object)).map Prod.snd

/-- The insertion `m_objects.emplace(object, vmt)`: nothing is inserted when
the key is present. -/
def mapEmplace (m : List (Nat × Nat)) (object vmt : Nat) : List (Nat × Nat) :=
  if (mapFind m object).isSome then m else (object, vmt) :: m

/-- The removal `m_objects.erase(search)` of the pair found for `object`. -/
def mapErase (m : List (Nat × Nat)) (object : Nat) : List (Nat × Nat) :=
  m.eraseP (fun p => p.1 == object)

/-- The representation invariant of the mapping: keys are unique. -/
def mapWF (m : List (Nat × Nat)) : Prop := (m.map Prod.fst).Nodup

instance mapWF.decidable (m : List (Nat × Nat)) : Decidable (mapWF m) :=
  inferInstanceAs (Decidable ((m.map Prod.fst).Nodup))

/-- The loop of `VmtHook::destroy` over the pairs of `m_objects`. -/
def destroyLoop (os : OS) (new_vmt : Nat) : List (Nat × Nat) → Mem → Mem
  | [], mem => mem
  | (object, original_vmt) :: rest, mem =>
    if !os.vm_is_writable object ptrSize then
      destroyLoop os new_vmt rest mem
    else if mem object ≠ slot new_vmt 1 then
      destroyLoop os new_vmt rest mem
    else
      destroyLoop os new_vmt rest (mem.write object original_vmt)

/-- Embedding of `VmtHook::destroy` (also the destructor). -/
def VmtHook.destroy (os : OS) (h : VmtHook) (mem : Mem) : VmtHook × Mem :=
  ({ m_objects := [], m_new_vmt_allocation := none, m_new_vmt := nullptr },
    destroyLoop os h.m_new_vmt h.m_objects mem)

/-- Embedding of `VmtHook::apply`. -/
def VmtHook.apply (h : VmtHook) (mem : Mem) (object : Nat) : VmtHook × Mem :=
  ({ h with m_objects := mapEmplace h.m_objects object (mem object) },
    mem.write object (slot h.m_new_vmt 1))

/-- Embedding of `VmtHook::remove`. -/
def VmtHook.remove (os : OS) (h : VmtHook) (mem : Mem) (object : Nat) : VmtHook × Mem :=
  match mapFind h.m_objects object with
  | none => (h, mem)
  | some original_vmt =>
    if !os.vm_is_writable object ptrSize then
      ({ h with m_objects := mapErase h.m_objects object }, mem)
    else if mem object ≠ slot h.m_new_vmt 1 then
      ({ h with m_objects := mapErase h.m_objects object }, mem)
    else
      ({ h with m_objects := mapErase h.m_objects object }, mem.write object original_vmt)

/-- The counting loop of `VmtHook::create`:
`for (vm = original_vmt; is_executable(*vm); ++vm) ++num_vmt_entries;`.
The loop has no bound of its own; `fuel` bounds the number of tests and
`none` stands for a scan that has not ended within it.  The counter is a
natural number (the `int` of the source overflows only past `2^31 - 1`
entries, which the C++ standard leaves undefined). -/
def countEntries (os : OS) (mem : Mem) : Nat → Nat → Nat → Option Nat
  | 0, _, _ => none
  | fuel + 1, vm, num_vmt_entries =>
    if os.is_executable (mem vm) then
      countEntries os mem fuel (vm + ptrSize) (num_vmt_entries + 1)
    else
      some num_vmt_entries

/-- The copy loop of `VmtHook::create`:
`for (i = 0; i < num_vmt_entries - 1; ++i) new_vmt[i + 1] = original_vmt[i];`
each load reads the memory as the earlier stores left it. -/
def copyEntries (new_vmt original_vmt : Nat) (num_vmt_entries : Nat) (mem : Mem) : Mem :=
  (List.range (num_vmt_entries - 1)).foldl
    (fun m i => m.write (slot new_vmt (i + 1)) (m (slot original_vmt i))) mem

/-- Embedding of `VmtHook::create`.  `allocate n` is the outcome of
`Allocator::global()->allocate(n)`: an error, or the data pointer of the new
allocation.  The result is `none` when the counting loop has not ended within
`fuel` tests; otherwise the returned value together with the memory.  On the
error return the local `hook`, which holds `object` in `m_objects`, is
destroyed by its destructor.  On the success return the hook is moved out; the
moved-from local has an empty map, so its destructor writes nothing.  The
entry of the original table at index `-1` is read at
`original_vmt - sizeof(uint8_t*)`. -/
def VmtHook.create (os : OS) (allocate : Nat → Except AllocatorError Nat) (fuel : Nat)
    (mem : Mem) (object : Nat) : Option (Except VmtHook.Error VmtHook × Mem) :=
  let hook0 : VmtHook := {}
  let original_vmt := mem object
  let hook1 : VmtHook := { hook0 with m_objects := mapEmplace hook0.m_objects object original_vmt }
  match countEntries os mem fuel original_vmt 1 with
  | none => none
  | some num_vmt_entries =>
    match allocate (num_vmt_entries * ptrSize) with
    | .error err => some (.error (.bad_allocation err), (hook1.destroy os mem).2)
    | .ok data =>
      let hook2 : VmtHook := { hook1 with m_new_vmt_allocation := some data, m_new_vmt := data }
      let mem1 := mem.write (slot hook2.m_new_vmt 0) (mem (original_vmt - ptrSize))
      let mem2 := copyEntries hook2.m_new_vmt original_vmt num_vmt_entries mem1
      some (.ok hook2, mem2.write object (slot hook2.m_new_vmt 1))

/-- Attaching further objects by repeated `apply`, first object first. -/
def applyAll (s : VmtHook × Mem) (objects : List Nat) : VmtHook × Mem :=
  objects.foldl (fun t object => t.1.apply t.2 object) s

/-! ## Concrete inputs -/

/-- An operating system on which every address is executable, writable and
can be unprotected. -/
def osPermissive : OS :=
  { is_executable := fun _ => true, vm_is_writable := fun _ _ => true,
    unprotect := fun _ _ => true }

/-- A memory holding a three-entry table at address 1000 (entries 5, 6, 7). -/
def memTable : Mem :=
  fun a => if a = 1000 then 5 else if a = 1008 then 6 else if a = 1016 then 7 else 0

/-- A table-patch hook attached to the table at address 1000, no entries. -/
def hookAt1000 : VmtOriginalHook := { m_pVtable := 1000, m_pHookEntries := [] }

/-- An operating system on which exactly the addresses 5000..5999 are
executable; every address is writable and can be unprotected. -/
def osCode : OS :=
  { is_executable := fun a => decide (5000 ≤ a ∧ a < 6000), vm_is_writable := fun _ _ => true,
    unprotect := fun _ _ => true }

/-- A memory with three objects at 100, 200 and 300 that share the table at
1000: type-info pointer 42 at 992, methods 5001, 5002, 5003 at 1000, 1008,
1016, and the data word 0 after them. -/
def memObjects : Mem :=
  fun a =>
    if a = 100 then 1000 else if a = 200 then 1000 else if a = 300 then 1000
    else if a = 992 then 42
    else if a = 1000 then 5001 else if a = 1008 then 5002 else if a = 1016 then 5003
    else 0

/-- An allocator that serves every request at address 3000. -/
def allocAt3000 : Nat → Except AllocatorError Nat := fun _ => .ok 3000

/-- An allocator that fails every request with error code 1. -/
def allocFails : Nat → Except AllocatorError Nat := fun _ => .error 1

/-- The hook that `VmtHook::create` builds for the object at 100 of
`memObjects` with `allocAt3000`. -/
def hookOn100 : VmtHook :=
  { m_objects := [(100, 1000)], m_new_vmt_allocation := some 3000, m_new_vmt := 3000 }

/-- The memory after that `create`: the private table at 3000 and the
re-pointed object at 100. -/
def memCreated : Mem :=
  ((((memObjects.write 3000 42).write 3008 5001).write 3016 5002).write 3024 5003).write 100 3008

/-- One call on a table-patch hook: `hook_method`, `remove` or `reset`. -/
inductive HookCall where
  | hook_method (index : Nat) (new_function : Nat)
  | remove (index : Nat)
  | reset
deriving DecidableEq, Repr

/-- The effect of one call on the hook and the memory (returned values are
dropped, see `runOp`). -/
def runCall (os : OS) (s : VmtOriginalHook × Mem) : HookCall → VmtOriginalHook × Mem
  | .hook_method index new_function => (s.1.hook_method os s.2 index new_function).2
  | .remove index => (s.1.remove os s.2 index).2
  | .reset => s.1.reset os s.2

/-- A finite sequence of calls, first call first. -/
def runCalls (os : OS) (s : VmtOriginalHook × Mem) (calls : List HookCall) :
    VmtOriginalHook × Mem :=
  calls.foldl (runCall os) s

/-- At most one entry per slot index. -/
def UniqueEntries (h : VmtOriginalHook) : Prop :=
  (h.m_pHookEntries.map VmtEntry_t.m_nIndex).Nodup

instance UniqueEntries.decidable (h : VmtOriginalHook) : Decidable (UniqueEntries h) :=
  inferInstanceAs (Decidable ((h.m_pHookEntries.map VmtEntry_t.m_nIndex).Nodup))

/-- The tracked entries address pairwise distinct words of the table. -/
def DistinctSlots (h : VmtOriginalHook) : Prop :=
  (h.m_pHookEntries.map (fun e => tableSlot h.m_pVtable e.m_nIndex)).Nodup

instance DistinctSlots.decidable (h : VmtOriginalHook) : Decidable (DistinctSlots h) :=
  inferInstanceAs (Decidable
    ((h.m_pHookEntries.map (fun (e : VmtEntry_t) => tableSlot h.m_pVtable e.m_nIndex)).Nodup))

/-- An operating system like `osPermissive`, except that the word at 1008
(slot 1 of the table at 1000) cannot be unprotected. -/
def osLocked1008 : OS :=
  { is_executable := fun _ => true, vm_is_writable := fun _ _ => true,
    unprotect := fun a _ => decide (a ≠ 1008) }

/-! ## Basic facts about memory and slots -/

theorem Mem.write_same (m : Mem) (a v : Nat) : (m.write a v) a = v := by
  simp [Mem.write]

theorem Mem.write_other (m : Mem) (a v x : Nat) (hx : x ≠ a) : (m.write a v) x = m x := by
  simp [Mem.write, hx]

theorem slot_inj (base : Nat) (i j : Nat) : slot base i = slot base j ↔ i = j := by
  simp only [slot, ptrSize]
  constructor
  · intro hs
    omega
  · intro hs
    rw [hs]

theorem slot_ne (base : Nat) {i j : Nat} (hij : i ≠ j) : slot base i ≠ slot base j :=
  fun hs => hij ((slot_inj base i j).1 hs)

/-! ## VmtOriginalHook: lemmas -/

theorem eraseFirst_of_find (index : Nat) (es : List VmtEntry_t) (e : VmtEntry_t)
    (hf : es.find? (fun x => x.m_nIndex == index) = some e) :
    ∃ rest, eraseFirst index es = some (e, rest) := by
  induction es with
  | nil => simp at hf
  | cons x xs ih =>
    by_cases hx : x.m_nIndex = index
    · rw [List.find?_cons_of_pos _ (by simpa using hx)] at hf
      cases hf
      exact ⟨xs, by simp [eraseFirst, hx]⟩
    · rw [List.find?_cons_of_neg _ (by simpa using hx)] at hf
      obtain ⟨rest, hr⟩ := ih hf
      exact ⟨x :: rest, by simp [eraseFirst, hx, hr]⟩

theorem hook_method_table (os : OS) (h : VmtOriginalHook) (mem : Mem) (j : Nat) (f : Nat) :
    (h.hook_method os mem j f).2.1.m_pVtable = h.m_pVtable := by
  unfold VmtOriginalHook.hook_method
  split
  · rfl
  · dsimp only
    split <;> rfl

theorem hook_method_search_other (os : OS) (h : VmtOriginalHook) (mem : Mem) (i j : Nat)
    (f : Nat) (hji : j ≠ i) :
    (h.hook_method os mem j f).2.1.SearchVMT i = h.SearchVMT i := by
  unfold VmtOriginalHook.hook_method
  split
  · rfl
  · dsimp only
    split
    · simp only [VmtOriginalHook.SearchVMT]
      rw [List.find?_cons_of_neg _ (by simpa using hji)]
    · rfl

theorem hook_method_mem_other (os : OS) (h : VmtOriginalHook) (mem : Mem) (j : Nat)
    (f : Nat) (a : Nat) (ha : a ≠ tableSlot h.m_pVtable j) :
    (h.hook_method os mem j f).2.2 a = mem a := by
  unfold VmtOriginalHook.hook_method
  split
  · rfl
  · exact Mem.write_other _ _ _ _ ha

theorem hookAll_keeps (os : OS) (i : Nat) (others : List (Nat × Nat))
    (hoth : ∀ c ∈ others, c.1 ≠ i) (s : VmtOriginalHook × Mem) :
    (hookAll os s others).1.m_pVtable = s.1.m_pVtable ∧
    (hookAll os s others).1.SearchVMT i = s.1.SearchVMT i := by
  induction others generalizing s with
  | nil => exact ⟨rfl, rfl⟩
  | cons c cs ih =>
    have hc : c.1 ≠ i := hoth c (List.mem_cons_self _ _)
    have hcs : ∀ d ∈ cs, d.1 ≠ i := fun d hd => hoth d (List.mem_cons_of_mem _ hd)
    have step := ih hcs (s.1.hook_method os s.2 c.1 c.2).2
    simp only [hookAll, List.foldl_cons] at step ⊢
    rw [step.1, step.2, hook_method_table, hook_method_search_other _ _ _ _ _ _ hc]
    exact ⟨rfl, rfl⟩

theorem remove_of_search (os : OS) (h : VmtOriginalHook) (mem : Mem) (i : Nat) (e : VmtEntry_t)
    (hatt : h.m_pVtable ≠ nullptr)
    (hprot : os.unprotect (tableSlot h.m_pVtable i) ptrSize = true)
    (hs : h.SearchVMT i = some e) :
    (h.remove os mem i).1 = .ok () ∧
    (h.remove os mem i).2.2 = mem.write (tableSlot h.m_pVtable i) e.m_pOriginalFunc := by
  obtain ⟨rest, hr⟩ := eraseFirst_of_find i h.m_pHookEntries e hs
  simp [VmtOriginalHook.remove, hatt, hprot, hr]

/-! ## VmtOriginalHook: round trip and double hook -/

/-- C1: on an attached hook with no entry for `i` and a successful protection
change on slot `i`, `hook_method(i, f)` returns a handle, and after any run of
`hook_method` calls on other indices `remove(i)` returns success and leaves
`table[i]` at the value it held before `hook_method(i, f)`. -/
theorem C1_hook_remove_round_trip (os : OS) (h : VmtOriginalHook) (mem : Mem) (i : Nat)
    (f : Nat) (others : List (Nat × Nat))
    (hatt : h.m_pVtable ≠ nullptr)
    (hnew : h.SearchVMT i = none)
    (hprot : os.unprotect (tableSlot h.m_pVtable i) ptrSize = true)
    (hoth : ∀ c ∈ others, c.1 ≠ i) :
    (∃ hk, (h.hook_method os mem i f).1 = .ok hk) ∧
    ((hookAll os (h.hook_method os mem i f).2 others).1.remove os
        (hookAll os (h.hook_method os mem i f).2 others).2 i).1 = .ok () ∧
    ((hookAll os (h.hook_method os mem i f).2 others).1.remove os
        (hookAll os (h.hook_method os mem i f).2 others).2 i).2.2 (tableSlot h.m_pVtable i)
      = mem (tableSlot h.m_pVtable i) := by
  have hk := hookAll_keeps os i others hoth (h.hook_method os mem i f).2
  have hs1 : (h.hook_method os mem i f).2.1.SearchVMT i
      = some { m_nIndex := i, m_pOriginalFunc := mem (tableSlot h.m_pVtable i) } := by
    simp only [VmtOriginalHook.hook_method, hprot, hnew, VmtOriginalHook.SearchVMT]
    simp only [VmtOriginalHook.SearchVMT] at hnew
    simp [hnew]
  have ht : (hookAll os (h.hook_method os mem i f).2 others).1.m_pVtable = h.m_pVtable := by
    rw [hk.1, hook_method_table]
  have hr := remove_of_search os (hookAll os (h.hook_method os mem i f).2 others).1
    (hookAll os (h.hook_method os mem i f).2 others).2 i _
    (by rw [ht]; exact hatt) (by rw [ht]; exact hprot) (by rw [hk.2]; exact hs1)
  refine ⟨?_, hr.1, ?_⟩
  · simp [VmtOriginalHook.hook_method, hprot]
  · rw [hr.2, ht]
    exact Mem.write_same _ _ _

/-- Witness of C1: table at 1000, index 0 hooked with 77, then index 1 and
index 2 hooked, then index 0 unhooked. -/
theorem C1_hook_remove_round_trip_witness :
    ((hookAll osPermissive (hookAt1000.hook_method osPermissive memTable 0 77).2
          [(1, 88), (2, 99)]).1.remove osPermissive
        (hookAll osPermissive (hookAt1000.hook_method osPermissive memTable 0 77).2
          [(1, 88), (2, 99)]).2 0).2.2 (tableSlot hookAt1000.m_pVtable 0)
      = memTable (tableSlot hookAt1000.m_pVtable 0) :=
  (C1_hook_remove_round_trip osPermissive hookAt1000 memTable 0 77 [(1, 88), (2, 99)]
    (by decide) (by decide) (by decide) (by decide)).2.2

/-- C2: on an attached hook with no entry for `i` (protection changes
succeeding), after `hook_method(i, f1)` and `hook_method(i, f2)` the slot holds
`f2`, the entries are the old ones preceded by one entry for `i` recording the
value the slot held before the first call, and one `remove(i)` succeeds and
puts that value back. -/
theorem C2_double_hook_keeps_original (os : OS) (h : VmtOriginalHook) (mem : Mem) (i : Nat)
    (f1 f2 : Nat)
    (hatt : h.m_pVtable ≠ nullptr)
    (hnew : h.SearchVMT i = none)
    (hprot : os.unprotect (tableSlot h.m_pVtable i) ptrSize = true) :
    (∃ hk1, (h.hook_method os mem i f1).1 = .ok hk1) ∧
    (∃ hk2, ((h.hook_method os mem i f1).2.1.hook_method os
        (h.hook_method os mem i f1).2.2 i f2).1 = .ok hk2) ∧
    ((h.hook_method os mem i f1).2.1.hook_method os
        (h.hook_method os mem i f1).2.2 i f2).2.2 (tableSlot h.m_pVtable i) = f2 ∧
    ((h.hook_method os mem i f1).2.1.hook_method os
        (h.hook_method os mem i f1).2.2 i f2).2.1.m_pHookEntries
      = { m_nIndex := i, m_pOriginalFunc := mem (tableSlot h.m_pVtable i) } :: h.m_pHookEntries ∧
    (((h.hook_method os mem i f1).2.1.hook_method os
        (h.hook_method os mem i f1).2.2 i f2).2.1.remove os
      ((h.hook_method os mem i f1).2.1.hook_method os
        (h.hook_method os mem i f1).2.2 i f2).2.2 i).1 = .ok () ∧
    (((h.hook_method os mem i f1).2.1.hook_method os
        (h.hook_method os mem i f1).2.2 i f2).2.1.remove os
      ((h.hook_method os mem i f1).2.1.hook_method os
        (h.hook_method os mem i f1).2.2 i f2).2.2 i).2.2 (tableSlot h.m_pVtable i)
      = mem (tableSlot h.m_pVtable i) := by
  have hnew2 : h.SearchVMT i = none := hnew
  simp only [VmtOriginalHook.SearchVMT] at hnew2
  have e1 : h.hook_method os mem i f1
      = (.ok { m_original_vm := mem (tableSlot h.m_pVtable i), m_new_vm := f1 },
         { h with m_pHookEntries :=
            { m_nIndex := i, m_pOriginalFunc := mem (tableSlot h.m_pVtable i) } :: h.m_pHookEntries },
         mem.write (tableSlot h.m_pVtable i) f1) := by
    simp [VmtOriginalHook.hook_method, hprot, hnew]
  rw [e1]
  have e2 : VmtOriginalHook.hook_method os
      { h with m_pHookEntries :=
            { m_nIndex := i, m_pOriginalFunc := mem (tableSlot h.m_pVtable i) } :: h.m_pHookEntries }
      (mem.write (tableSlot h.m_pVtable i) f1) i f2
      = (.ok { m_original_vm := f1, m_new_vm := f2 },
         { h with m_pHookEntries :=
            { m_nIndex := i, m_pOriginalFunc := mem (tableSlot h.m_pVtable i) } :: h.m_pHookEntries },
         (mem.write (tableSlot h.m_pVtable i) f1).write (tableSlot h.m_pVtable i) f2) := by
    simp [VmtOriginalHook.hook_method, hprot, VmtOriginalHook.SearchVMT, Mem.write_same]
  dsimp only
  rw [e2]
  dsimp only
  refine ⟨⟨_, rfl⟩, ⟨_, rfl⟩, Mem.write_same _ _ _, rfl, ?_⟩
  have hr : VmtOriginalHook.remove os
      { h with m_pHookEntries :=
            { m_nIndex := i, m_pOriginalFunc := mem (tableSlot h.m_pVtable i) } :: h.m_pHookEntries }
      ((mem.write (tableSlot h.m_pVtable i) f1).write (tableSlot h.m_pVtable i) f2) i
      = (.ok (), h,
          ((mem.write (tableSlot h.m_pVtable i) f1).write (tableSlot h.m_pVtable i) f2).write
            (tableSlot h.m_pVtable i) (mem (tableSlot h.m_pVtable i))) := by
    simp [VmtOriginalHook.remove, hatt, hprot, eraseFirst]
  rw [hr]
  exact ⟨rfl, Mem.write_same _ _ _⟩

/-- Witness of C2: slot 1 of the table at 1000 hooked with 77, then with 88. -/
theorem C2_double_hook_keeps_original_witness :
    (((hookAt1000.hook_method osPermissive memTable 1 77).2.1.hook_method osPermissive
        (hookAt1000.hook_method osPermissive memTable 1 77).2.2 1 88).2.1.remove osPermissive
      ((hookAt1000.hook_method osPermissive memTable 1 77).2.1.hook_method osPermissive
        (hookAt1000.hook_method osPermissive memTable 1 77).2.2 1 88).2.2 1).2.2
        (tableSlot hookAt1000.m_pVtable 1)
      = memTable (tableSlot hookAt1000.m_pVtable 1) :=
  (C2_double_hook_keeps_original osPermissive hookAt1000 memTable 1 77 88
    (by decide) (by decide) (by decide)).2.2.2.2.2

/-! ## VmtOriginalHook: teardown reverts every change -/

theorem tableSlot_inj_of_lt (t i j : Nat) (hi : i < 2 ^ 61) (hj : j < 2 ^ 61)
    (hs : tableSlot t i = tableSlot t j) : i = j := by
  simp only [tableSlot, ptrSize] at hs
  omega

theorem VmHook.destroy_mem_of_no_entry (h : VmHook) (m : Mem)
    (he : h.m_vmt_entry = nullptr) : (h.destroy m).2 = m := by
  unfold VmHook.destroy
  by_cases h1 : h.m_original_vm = nullptr <;> simp [h1, he]

theorem VmHook.reset_mem_of_no_entry (h : VmHook) (m : Mem)
    (he : h.m_vmt_entry = nullptr) : (h.reset m).2 = m := by
  simp only [VmHook.reset, VmHook.moveAssign]
  rw [VmHook.destroy_mem_of_no_entry _ _ rfl, VmHook.destroy_mem_of_no_entry _ _ he]

/-- C4, counterexample: on the table at 1000 (slot 0 holds 5),
`hook_method(0, 77)` returns a handle without a slot address; destroying or
resetting that handle leaves slot 0 at 77, not at the value 5 it held before
the call. -/
theorem C4_release_does_not_revert :
    memTable (tableSlot hookAt1000.m_pVtable 0) = 5 ∧
    (hookAt1000.hook_method osPermissive memTable 0 77).1
      = .ok { m_original_vm := 5, m_new_vm := 77, m_vmt_entry := nullptr,
              m_new_vmt_allocation := none } ∧
    (VmHook.destroy { m_original_vm := 5, m_new_vm := 77, m_vmt_entry := nullptr,
                      m_new_vmt_allocation := none }
      (hookAt1000.hook_method osPermissive memTable 0 77).2.2).2
        (tableSlot hookAt1000.m_pVtable 0) = 77 ∧
    (VmHook.reset { m_original_vm := 5, m_new_vm := 77, m_vmt_entry := nullptr,
                    m_new_vmt_allocation := none }
      (hookAt1000.hook_method osPermissive memTable 0 77).2.2).2
        (tableSlot hookAt1000.m_pVtable 0) = 77 := by
  refine ⟨by decide, rfl, by decide, by decide⟩

/-- C4, amended: a successful `hook_method(i, f)` returns a handle that
carries the value `table[i]` held before the call and `f`, but no slot address
(`m_vmt_entry` is null); releasing the handle by `destroy` (the destructor) or
`reset` writes no memory word, so `table[i]` keeps `f`. -/
theorem C4_handle_release_writes_nothing (os : OS) (h : VmtOriginalHook) (mem : Mem)
    (i f : Nat)
    (hprot : os.unprotect (tableSlot h.m_pVtable i) ptrSize = true) :
    (h.hook_method os mem i f).1
      = .ok { m_original_vm := mem (tableSlot h.m_pVtable i), m_new_vm := f,
              m_vmt_entry := nullptr, m_new_vmt_allocation := none } ∧
    (h.hook_method os mem i f).2.2 (tableSlot h.m_pVtable i) = f ∧
    ∀ m : Mem,
      (VmHook.destroy { m_original_vm := mem (tableSlot h.m_pVtable i), m_new_vm := f,
                        m_vmt_entry := nullptr, m_new_vmt_allocation := none } m).2 = m ∧
      (VmHook.reset { m_original_vm := mem (tableSlot h.m_pVtable i), m_new_vm := f,
                      m_vmt_entry := nullptr, m_new_vmt_allocation := none } m).2 = m := by
  refine ⟨?_, ?_, ?_⟩
  · simp [VmtOriginalHook.hook_method, hprot]
  · simp [VmtOriginalHook.hook_method, hprot, Mem.write_same]
  · intro m
    exact ⟨VmHook.destroy_mem_of_no_entry _ _ rfl, VmHook.reset_mem_of_no_entry _ _ rfl⟩

/-- Witness of C4 (amended): the handle of `hook_method(0, 77)` on the table
at 1000. -/
theorem C4_handle_release_writes_nothing_witness :
    (hookAt1000.hook_method osPermissive memTable 0 77).2.2 (tableSlot hookAt1000.m_pVtable 0) = 77 :=
  (C4_handle_release_writes_nothing osPermissive hookAt1000 memTable 0 77 (by decide)).2.1

/-! ## VmtHook: the attachment map -/

theorem mapFind_isSome_iff (m : List (Nat × Nat)) (k : Nat) :
    (mapFind m k).isSome = true ↔ k ∈ m.map Prod.fst := by
  induction m with
  | nil => simp [mapFind]
  | cons p ps ih =>
    by_cases hp : p.1 = k
    · simp [mapFind, List.find?_cons_of_pos, hp]
    · have hne : ¬ k = p.1 := fun hc => hp hc.symm
      simp only [mapFind] at ih
      simp only [mapFind]
      rw [List.find?_cons_of_neg _ (by simpa using hp)]
      simp [ih, hne]

theorem mapEmplace_mem (m : List (Nat × Nat)) (k v : Nat) (p : Nat × Nat) (hp : p ∈ m) :
    p ∈ mapEmplace m k v := by
  unfold mapEmplace
  split
  · exact hp
  · exact List.mem_cons_of_mem _ hp

theorem mapEmplace_keys (m : List (Nat × Nat)) (k v x : Nat)
    (hx : x ∈ (mapEmplace m k v).map Prod.fst) : x = k ∨ x ∈ m.map Prod.fst := by
  unfold mapEmplace at hx
  split at hx
  · exact Or.inr hx
  · simpa using hx

theorem mapEmplace_new (m : List (Nat × Nat)) (k v : Nat) (hk : k ∉ m.map Prod.fst) :
    (k, v) ∈ mapEmplace m k v := by
  unfold mapEmplace
  split
  · rename_i hs
    exact absurd ((mapFind_isSome_iff m k).1 hs) hk
  · exact List.mem_cons_self _ _

theorem mapEmplace_wf (m : List (Nat × Nat)) (k v : Nat) (hm : mapWF m) :
    mapWF (mapEmplace m k v) := by
  unfold mapEmplace
  split
  · exact hm
  · rename_i hs
    have hk : k ∉ m.map Prod.fst := fun hc => hs ((mapFind_isSome_iff m k).2 hc)
    simp only [mapWF, List.map_cons, List.nodup_cons]
    exact ⟨hk, hm⟩

theorem applyAll_new_vmt (objects : List Nat) (s : VmtHook × Mem) :
    (applyAll s objects).1.m_new_vmt = s.1.m_new_vmt := by
  induction objects generalizing s with
  | nil => rfl
  | cons o rest ih =>
    simp only [applyAll, List.foldl_cons] at ih ⊢
    rw [ih]
    rfl

theorem applyAll_mem (objects : List Nat) (s : VmtHook × Mem) (p : Nat × Nat)
    (hp : p ∈ s.1.m_objects) : p ∈ (applyAll s objects).1.m_objects := by
  induction objects generalizing s with
  | nil => exact hp
  | cons o rest ih =>
    simp only [applyAll, List.foldl_cons] at ih ⊢
    apply ih
    exact mapEmplace_mem _ _ _ _ hp

theorem applyAll_keys (objects : List Nat) (s : VmtHook × Mem) (x : Nat)
    (hx : x ∈ (applyAll s objects).1.m_objects.map Prod.fst) :
    x ∈ s.1.m_objects.map Prod.fst ∨ x ∈ objects := by
  induction objects generalizing s with
  | nil => exact Or.inl hx
  | cons o rest ih =>
    simp only [applyAll, List.foldl_cons] at ih hx
    rcases ih _ hx with h1 | h1
    · rcases mapEmplace_keys _ _ _ _ h1 with h2 | h2
      · exact Or.inr (h2 ▸ List.mem_cons_self _ _)
      · exact Or.inl h2
    · exact Or.inr (List.mem_cons_of_mem _ h1)

theorem applyAll_wf (objects : List Nat) (s : VmtHook × Mem) (hs : mapWF s.1.m_objects) :
    mapWF (applyAll s objects).1.m_objects := by
  induction objects generalizing s with
  | nil => exact hs
  | cons o rest ih =>
    simp only [applyAll, List.foldl_cons] at ih ⊢
    apply ih
    exact mapEmplace_wf _ _ _ hs

theorem applyAll_append (pre post : List Nat) (s : VmtHook × Mem) :
    applyAll s (pre ++ post) = applyAll (applyAll s pre) post := by
  simp [applyAll, List.foldl_append]

theorem destroyLoop_frame (os : OS) (nv : Nat) (l : List (Nat × Nat)) (mem : Mem) (a : Nat)
    (ha : a ∉ l.map Prod.fst) : destroyLoop os nv l mem a = mem a := by
  induction l generalizing mem with
  | nil => rfl
  | cons p ps ih =>
    obtain ⟨k, v⟩ := p
    have hak : a ≠ k := fun hc => ha (by simp [hc])
    have hps : a ∉ ps.map Prod.fst := fun hc => ha (by simp at hc ⊢; exact Or.inr hc)
    unfold destroyLoop
    split
    · exact ih mem hps
    · split
      · exact ih mem hps
      · rw [ih _ hps, Mem.write_other _ _ _ _ hak]

theorem destroyLoop_restores (os : OS) (nv : Nat) (l : List (Nat × Nat)) (mem : Mem)
    (hwf : mapWF l)
    (hw : ∀ p ∈ l, os.vm_is_writable p.1 ptrSize = true)
    (hlive : ∀ p ∈ l, mem p.1 = slot nv 1) :
    ∀ p ∈ l, destroyLoop os nv l mem p.1 = p.2 := by
  induction l generalizing mem with
  | nil => exact fun p hp => absurd hp (List.not_mem_nil p)
  | cons q qs ih =>
    obtain ⟨k, v⟩ := q
    simp only [mapWF, List.map_cons, List.nodup_cons] at hwf
    have hkw := hw (k, v) (List.mem_cons_self _ _)
    have hkl := hlive (k, v) (List.mem_cons_self _ _)
    dsimp only at hkw hkl
    have hstep : destroyLoop os nv ((k, v) :: qs) mem = destroyLoop os nv qs (mem.write k v) := by
      simp [destroyLoop, hkw, hkl]
    intro p hp
    rw [hstep]
    rcases List.mem_cons.1 hp with h1 | h1
    · subst h1
      rw [destroyLoop_frame os nv qs _ k hwf.1]
      exact Mem.write_same _ _ _
    · apply ih (mem.write k v) hwf.2 (fun r hr => hw r (List.mem_cons_of_mem _ hr)) _ p h1
      intro r hr
      have hrk : r.1 ≠ k := fun hc => hwf.1 (hc ▸ List.mem_map_of_mem Prod.fst hr)
      rw [Mem.write_other _ _ _ _ hrk]
      exact hlive r (List.mem_cons_of_mem _ hr)

theorem create_ok_objects (os : OS) (allocate : Nat → Except AllocatorError Nat) (fuel : Nat)
    (mem : Mem) (object : Nat) (hook : VmtHook) (mem1 : Mem)
    (hc : VmtHook.create os allocate fuel mem object = some (.ok hook, mem1)) :
    hook.m_objects = [(object, mem object)] := by
  unfold VmtHook.create at hc
  dsimp only at hc
  split at hc
  · cases hc
  · split at hc
    · cases hc
    · cases hc
      rfl

/-! ## VmtHook: fan-out over a shared private table -/

/-- C5: a hook built by `create` on `obj0` and `apply` on the further
distinct objects `objs`; if at destroy time every attached object's
table-pointer word is writable and holds the address of slot 1 of the private
table, then `destroy` leaves the attachment map empty, gives `obj0` the table
pointer it held before `create`, and gives every further object the table
pointer it held just before its own `apply`. -/
theorem C5_destroy_restores_all_attached (os osD : OS)
    (allocate : Nat → Except AllocatorError Nat) (fuel : Nat) (mem : Mem) (obj0 : Nat)
    (objs : List Nat) (hook : VmtHook) (mem1 memD : Mem)
    (hc : VmtHook.create os allocate fuel mem obj0 = some (.ok hook, mem1))
    (hd : (obj0 :: objs).Nodup)
    (hw : ∀ o ∈ obj0 :: objs, osD.vm_is_writable o ptrSize = true)
    (hp : ∀ o ∈ obj0 :: objs, memD o = slot (applyAll (hook, mem1) objs).1.m_new_vmt 1) :
    ((applyAll (hook, mem1) objs).1.destroy osD memD).1.m_objects = [] ∧
    ((applyAll (hook, mem1) objs).1.destroy osD memD).2 obj0 = mem obj0 ∧
    ∀ (pre : List Nat) (o : Nat) (post : List Nat), objs = pre ++ o :: post →
      ((applyAll (hook, mem1) objs).1.destroy osD memD).2 o = (applyAll (hook, mem1) pre).2 o := by
  have hobj := create_ok_objects os allocate fuel mem obj0 hook mem1 hc
  have hwf0 : mapWF (hook, mem1).1.m_objects := by
    simp [mapWF, hobj]
  have hwf := applyAll_wf objs (hook, mem1) hwf0
  have hkeys : ∀ p ∈ (applyAll (hook, mem1) objs).1.m_objects, p.1 ∈ obj0 :: objs := by
    intro p hp2
    rcases applyAll_keys objs (hook, mem1) p.1 (List.mem_map_of_mem Prod.fst hp2) with h1 | h1
    · simp only [hobj, List.map_cons, List.map_nil, List.mem_singleton] at h1
      exact h1 ▸ List.mem_cons_self _ _
    · exact List.mem_cons_of_mem _ h1
  have hall := destroyLoop_restores osD (applyAll (hook, mem1) objs).1.m_new_vmt
    (applyAll (hook, mem1) objs).1.m_objects memD hwf
    (fun p hp2 => hw p.1 (hkeys p hp2)) (fun p hp2 => hp p.1 (hkeys p hp2))
  refine ⟨rfl, ?_, ?_⟩
  · have hin : (obj0, mem obj0) ∈ (applyAll (hook, mem1) objs).1.m_objects :=
      applyAll_mem objs (hook, mem1) _ (by simp [hobj])
    exact hall _ hin
  · intro pre o post hsplit
    have hin : (o, (applyAll (hook, mem1) pre).2 o) ∈ (applyAll (hook, mem1) objs).1.m_objects := by
      rw [hsplit, applyAll_append]
      have hfresh : o ∉ (applyAll (hook, mem1) pre).1.m_objects.map Prod.fst := by
        intro hcon
        rw [hsplit] at hd
        rcases applyAll_keys pre (hook, mem1) o hcon with h1 | h1
        · simp only [hobj, List.map_cons, List.map_nil, List.mem_singleton] at h1
          have := (List.nodup_cons.1 hd).1
          exact this (by simp [h1])
        · have h2 := (List.nodup_cons.1 hd).2
          have h3 := (List.nodup_append.1 h2).2.2
          exact h3 h1 (List.mem_cons_self _ _)
      have hstep : applyAll (applyAll (hook, mem1) pre) (o :: post)
          = applyAll ((applyAll (hook, mem1) pre).1.apply (applyAll (hook, mem1) pre).2 o) post := by
        simp [applyAll]
      rw [hstep]
      apply applyAll_mem
      exact mapEmplace_new _ _ _ hfresh
    exact hall _ hin

/-- Witness of C5: `create` on the object at 100, `apply` on the objects at
200 and 300, then `destroy`. -/
theorem C5_destroy_restores_all_attached_witness :
    ((applyAll (hookOn100, memCreated) [200, 300]).1.destroy osCode
        (applyAll (hookOn100, memCreated) [200, 300]).2).2 100 = memObjects 100 ∧
    ((applyAll (hookOn100, memCreated) [200, 300]).1.destroy osCode
        (applyAll (hookOn100, memCreated) [200, 300]).2).2 300
      = (applyAll (hookOn100, memCreated) [200]).2 300 :=
  ⟨(C5_destroy_restores_all_attached osCode osCode allocAt3000 10 memObjects 100 [200, 300]
      hookOn100 memCreated (applyAll (hookOn100, memCreated) [200, 300]).2
      rfl (by decide) (by decide) (by decide)).2.1,
   (C5_destroy_restores_all_attached osCode osCode allocAt3000 10 memObjects 100 [200, 300]
      hookOn100 memCreated (applyAll (hookOn100, memCreated) [200, 300]).2
      rfl (by decide) (by decide) (by decide)).2.2 [200] 300 [] rfl⟩

/-! ## VmtHook: stale table pointers -/

theorem mapFind_eq_none_iff (m : List (Nat × Nat)) (k : Nat) :
    mapFind m k = none ↔ k ∉ m.map Prod.fst := by
  rw [← mapFind_isSome_iff]
  cases mapFind m k <;> simp

theorem mapErase_not_tracked (m : List (Nat × Nat)) (k : Nat) (hwf : mapWF m) :
    mapFind (mapErase m k) k = none := by
  rw [mapFind_eq_none_iff]
  induction m with
  | nil => simp [mapErase]
  | cons p ps ih =>
    simp only [mapWF, List.map_cons, List.nodup_cons] at hwf
    by_cases hp : p.1 = k
    · have he : mapErase (p :: ps) k = ps := by
        simp [mapErase, List.eraseP_cons_of_pos, hp]
      rw [he]
      exact hp ▸ hwf.1
    · have he : mapErase (p :: ps) k = p :: mapErase ps k := by
        simp [mapErase, List.eraseP_cons_of_neg, hp]
      rw [he]
      intro hc
      rcases List.mem_cons.1 hc with h1 | h1
      · exact hp h1.symm
      · exact ih hwf.2 h1

theorem destroyLoop_stale (os : OS) (nv : Nat) (l : List (Nat × Nat)) (mem : Mem)
    (object : Nat) (hstale : mem object ≠ slot nv 1) :
    destroyLoop os nv l mem object = mem object := by
  induction l generalizing mem with
  | nil => rfl
  | cons p ps ih =>
    obtain ⟨k, v⟩ := p
    unfold destroyLoop
    split
    · exact ih mem hstale
    · split
      · exact ih mem hstale
      · rename_i hlive
        have hk : object ≠ k := by
          intro hc
          subst hc
          exact hlive hstale
        have hw : (mem.write k v) object = mem object := Mem.write_other _ _ _ _ hk
        rw [ih (mem.write k v) (by rw [hw]; exact hstale), hw]

/-- C6: if the table-pointer word of an attached object does not hold the
address of slot 1 of the private table, then `remove(object)` and `destroy`
both leave that word as it is, and afterwards the object is not tracked. -/
theorem C6_stale_pointer_left_alone (os : OS) (h : VmtHook) (mem : Mem) (object : Nat)
    (hwf : mapWF h.m_objects)
    (hatt : object ∈ h.m_objects.map Prod.fst)
    (hstale : mem object ≠ slot h.m_new_vmt 1) :
    (h.remove os mem object).2 object = mem object ∧
    mapFind (h.remove os mem object).1.m_objects object = none ∧
    (h.destroy os mem).2 object = mem object ∧
    mapFind (h.destroy os mem).1.m_objects object = none := by
  refine ⟨?_, ?_, destroyLoop_stale os _ _ mem object hstale, rfl⟩
  · unfold VmtHook.remove
    split
    · rfl
    · split
      · rfl
      · simp [hstale]
  · unfold VmtHook.remove
    split
    · rename_i hnone
      exact absurd hatt ((mapFind_eq_none_iff _ _).1 hnone)
    · split
      · exact mapErase_not_tracked _ _ hwf
      · simp only [hstale, ne_eq, not_false_eq_true, if_true]
        exact mapErase_not_tracked _ _ hwf

/-- Witness of C6: the objects at 100 and 200 are attached to the private
table at 3000; the word of the object at 200 was re-pointed to 7777. -/
theorem C6_stale_pointer_left_alone_witness :
    (VmtHook.remove osCode
        { m_objects := [(200, 1000), (100, 1000)], m_new_vmt_allocation := some 3000,
          m_new_vmt := 3000 }
        ((memCreated.write 200 3008).write 200 7777) 200).2 200 = 7777 ∧
    (VmtHook.destroy osCode
        { m_objects := [(200, 1000), (100, 1000)], m_new_vmt_allocation := some 3000,
          m_new_vmt := 3000 }
        ((memCreated.write 200 3008).write 200 7777)).2 200 = 7777 :=
  ⟨(C6_stale_pointer_left_alone osCode
      { m_objects := [(200, 1000), (100, 1000)], m_new_vmt_allocation := some 3000,
        m_new_vmt := 3000 }
      ((memCreated.write 200 3008).write 200 7777) 200
      (by decide) (by decide) (by decide)).1,
   (C6_stale_pointer_left_alone osCode
      { m_objects := [(200, 1000), (100, 1000)], m_new_vmt_allocation := some 3000,
        m_new_vmt := 3000 }
      ((memCreated.write 200 3008).write 200 7777) 200
      (by decide) (by decide) (by decide)).2.2.1⟩

/-! ## VmtHook: creation -/

theorem Mem.write_self (m : Mem) (a : Nat) : m.write a (m a) = m := by
  funext x
  by_cases hx : x = a
  · simp [Mem.write, hx]
  · simp [Mem.write, hx]

theorem countEntries_exact (os : OS) (mem : Mem) (n : Nat) :
    ∀ (fuel vm num : Nat),
      (∀ i, i < n → os.is_executable (mem (slot vm i)) = true) →
      os.is_executable (mem (slot vm n)) = false →
      n < fuel →
      countEntries os mem fuel vm num = some (num + n) := by
  induction n with
  | zero =>
    intro fuel vm num _ hend hfuel
    obtain ⟨f, rfl⟩ : ∃ f, fuel = f + 1 := ⟨fuel - 1, by omega⟩
    have h0 : slot vm 0 = vm := by simp [slot]
    rw [h0] at hend
    simp [countEntries, hend]
  | succ k ih =>
    intro fuel vm num hexec hend hfuel
    obtain ⟨f, rfl⟩ : ∃ f, fuel = f + 1 := ⟨fuel - 1, by omega⟩
    have h0 : slot vm 0 = vm := by simp [slot]
    have hfirst := hexec 0 (Nat.succ_pos k)
    rw [h0] at hfirst
    have hshift : ∀ i, slot (vm + ptrSize) i = slot vm (i + 1) := by
      intro i
      simp only [slot, ptrSize]
      omega
    have hrec := ih f (vm + ptrSize) (num + 1)
      (fun i hi => by rw [hshift]; exact hexec (i + 1) (Nat.succ_lt_succ hi))
      (by rw [hshift]; exact hend) (by omega)
    simp only [countEntries, hfirst, if_true]
    rw [hrec]
    congr 1
    omega

theorem destroy_half_built (os : OS) (mem : Mem) (object : Nat) :
    (VmtHook.destroy os
      { m_objects := [(object, mem object)], m_new_vmt_allocation := none, m_new_vmt := nullptr }
      mem).2 = mem := by
  simp only [VmtHook.destroy, destroyLoop]
  split
  · rfl
  · split
    · rfl
    · exact Mem.write_self mem object

theorem create_error_eq (os : OS) (allocate : Nat → Except AllocatorError Nat)
    (fuel : Nat) (mem : Mem) (object n : Nat) (err : AllocatorError)
    (hexec : ∀ i, i < n → os.is_executable (mem (slot (mem object) i)) = true)
    (hend : os.is_executable (mem (slot (mem object) n)) = false)
    (hfuel : n < fuel)
    (hfail : allocate ((n + 1) * ptrSize) = .error err) :
    VmtHook.create os allocate fuel mem object = some (.error (.bad_allocation err), mem) := by
  have hcount := countEntries_exact os mem n fuel (mem object) 1 hexec hend hfuel
  rw [Nat.add_comm 1 n] at hcount
  have hmap : mapEmplace [] object (mem object) = [(object, mem object)] := by
    simp [mapEmplace, mapFind]
  simp only [VmtHook.create, hcount, hfail, hmap]
  rw [destroy_half_built]

/-- C7: when the counting loop ends (the table has `n` executable entries
followed by one that is not, and the fuel exceeds `n`) and the allocator
answers the request with the error `err`, `create` returns
`bad_allocation(err)`, and the memory after the call, including the
destruction of the hook that had recorded `object`, is the memory before
it. -/
theorem C7_allocation_failure_atomic (os : OS) (allocate : Nat → Except AllocatorError Nat)
    (fuel : Nat) (mem : Mem) (object n : Nat) (err : AllocatorError)
    (hexec : ∀ i, i < n → os.is_executable (mem (slot (mem object) i)) = true)
    (hend : os.is_executable (mem (slot (mem object) n)) = false)
    (hfuel : n < fuel)
    (hfail : allocate ((n + 1) * ptrSize) = .error err) :
    VmtHook.create os allocate fuel mem object = some (.error (.bad_allocation err), mem) :=
  create_error_eq os allocate fuel mem object n err hexec hend hfuel hfail

/-- Witness of C7: `create` on the object at 100 with a failing allocator. -/
theorem C7_allocation_failure_atomic_witness :
    VmtHook.create osCode allocFails 10 memObjects 100
      = some (.error (.bad_allocation 1), memObjects) :=
  C7_allocation_failure_atomic osCode allocFails 10 memObjects 100 3 1
    (by decide) (by decide) (by decide) rfl

theorem copyEntries_frame (data orig : Nat) (k : Nat) (m : Mem) (a : Nat)
    (ha : ∀ j, j < k → a ≠ slot data (j + 1)) :
    copyEntries data orig (k + 1) m a = m a := by
  induction k with
  | zero => rfl
  | succ k ih =>
    have hk := ih (fun j hj => ha j (Nat.lt_succ_of_lt hj))
    simp only [copyEntries, Nat.add_sub_cancel] at hk ⊢
    rw [List.range_succ, List.foldl_append]
    simp only [List.foldl_cons, List.foldl_nil]
    rw [Mem.write_other _ _ _ _ (ha k (Nat.lt_succ_self k))]
    exact hk

theorem copyEntries_values (data orig : Nat) (k : Nat) (m : Mem)
    (hdis : ∀ i, i < k → ∀ j, j < k → slot orig i ≠ slot data (j + 1)) :
    ∀ i, i < k → copyEntries data orig (k + 1) m (slot data (i + 1)) = m (slot orig i) := by
  induction k with
  | zero => exact fun i hi => absurd hi (Nat.not_lt_zero i)
  | succ k ih =>
    intro i hi
    have hk := ih (fun i hi j hj => hdis i (Nat.lt_succ_of_lt hi) j (Nat.lt_succ_of_lt hj))
    have hfr := copyEntries_frame data orig k m (slot orig k)
      (fun j hj => hdis k (Nat.lt_succ_self k) j (Nat.lt_succ_of_lt hj))
    simp only [copyEntries, Nat.add_sub_cancel] at hk hfr ⊢
    rw [List.range_succ, List.foldl_append]
    simp only [List.foldl_cons, List.foldl_nil]
    rcases Nat.lt_succ_iff_lt_or_eq.1 hi with h1 | h1
    · have hik : i + 1 ≠ k + 1 := Nat.ne_of_lt (Nat.succ_lt_succ h1)
      have hne : slot data (i + 1) ≠ slot data (k + 1) := slot_ne data hik
      rw [Mem.write_other _ _ _ _ hne]
      exact hk i h1
    · subst h1
      rw [Mem.write_same]
      exact hfr

theorem create_ok_eq (os : OS) (allocate : Nat → Except AllocatorError Nat)
    (fuel : Nat) (mem : Mem) (object n data : Nat)
    (hexec : ∀ i, i < n → os.is_executable (mem (slot (mem object) i)) = true)
    (hend : os.is_executable (mem (slot (mem object) n)) = false)
    (hfuel : n < fuel)
    (halloc : allocate ((n + 1) * ptrSize) = .ok data) :
    VmtHook.create os allocate fuel mem object
      = some (.ok { m_objects := [(object, mem object)], m_new_vmt_allocation := some data,
                    m_new_vmt := data },
          (copyEntries data (mem object) (n + 1)
            (mem.write (slot data 0) (mem (mem object - ptrSize)))).write object
              (slot data 1)) := by
  have hcount := countEntries_exact os mem n fuel (mem object) 1 hexec hend hfuel
  rw [Nat.add_comm 1 n] at hcount
  have hmap : mapEmplace [] object (mem object) = [(object, mem object)] := by
    simp [mapEmplace, mapFind]
  simp only [VmtHook.create, hcount, halloc, hmap]

/-- C8: for an object whose table has exactly `n` leading executable entries
followed by one that is not, and an allocator that answers the request for
`(n + 1) * sizeof(void*)` bytes with the block at `data` (no word of which is
the object's word, the type-info word or one of the `n` entries), `create`
succeeds, the new table is at `data`, slot 0 holds the type-info pointer
`original[-1]`, slot `i + 1` holds `original[i]` for every `i < n`, and the
object's word holds the address of slot 1.  The allocator is consulted only
for that size: `allocate` is arbitrary on every other request. -/
theorem C8_duplicate_table_layout (os : OS) (allocate : Nat → Except AllocatorError Nat)
    (fuel : Nat) (mem : Mem) (object n data : Nat)
    (hexec : ∀ i, i < n → os.is_executable (mem (slot (mem object) i)) = true)
    (hend : os.is_executable (mem (slot (mem object) n)) = false)
    (hfuel : n < fuel)
    (halloc : allocate ((n + 1) * ptrSize) = .ok data)
    (hfresh : ∀ j, j ≤ n → slot data j ≠ object ∧ slot data j ≠ mem object - ptrSize ∧
      ∀ i, i < n → slot data j ≠ slot (mem object) i) :
    ∃ (hook : VmtHook) (mem1 : Mem),
      VmtHook.create os allocate fuel mem object = some (.ok hook, mem1) ∧
      hook.m_new_vmt = data ∧
      hook.m_new_vmt_allocation = some data ∧
      mem1 (slot data 0) = mem (mem object - ptrSize) ∧
      (∀ i, i < n → mem1 (slot data (i + 1)) = mem (slot (mem object) i)) ∧
      mem1 object = slot data 1 := by
  refine ⟨_, _, create_ok_eq os allocate fuel mem object n data hexec hend hfuel halloc,
    rfl, rfl, ?_, ?_, ?_⟩
  · rw [Mem.write_other _ _ _ _ (hfresh 0 (Nat.zero_le n)).1]
    rw [copyEntries_frame data (mem object) n _ _ (fun j _ => slot_ne data (by omega))]
    exact Mem.write_same _ _ _
  · intro i hi
    rw [Mem.write_other _ _ _ _ (hfresh (i + 1) (by omega)).1]
    rw [copyEntries_values data (mem object) n _
      (fun i2 hi2 j hj => fun hc => (hfresh (j + 1) (by omega)).2.2 i2 hi2 hc.symm) i hi]
    exact Mem.write_other _ _ _ _ (fun hc => (hfresh 0 (Nat.zero_le n)).2.2 i hi hc.symm)
  · exact Mem.write_same _ _ _

/-- Witness of C8: the three-method table of `memObjects`; the allocator is
asked for 4 slots (32 bytes) and the copy lands at 3000..3024. -/
theorem C8_duplicate_table_layout_witness :
    ∃ (hook : VmtHook) (mem1 : Mem),
      VmtHook.create osCode (fun size => if size = 32 then .ok 3000 else .error 2) 10
        memObjects 100 = some (.ok hook, mem1) ∧
      hook.m_new_vmt = 3000 ∧
      hook.m_new_vmt_allocation = some 3000 ∧
      mem1 (slot 3000 0) = memObjects (memObjects 100 - ptrSize) ∧
      (∀ i, i < 3 → mem1 (slot 3000 (i + 1)) = memObjects (slot (memObjects 100) i)) ∧
      mem1 100 = slot 3000 1 :=
  C8_duplicate_table_layout osCode (fun size => if size = 32 then .ok 3000 else .error 2) 10
    memObjects 100 3 3000 (by decide) (by decide) (by decide) rfl (by decide)

/-! ## VmtHook: isolation -/

/-- C9: `create(object)` (counting loop ending after `n` entries) returns, and
every word other than the object's table-pointer word that lies outside the
block the allocator handed out for the request holds the same value after the
call as before; this covers the error return, where nothing is allocated.
`apply(object)` changes no word other than the object's table-pointer word. -/
theorem C9_attach_writes_only_object_word (os : OS)
    (allocate : Nat → Except AllocatorError Nat) (fuel : Nat) (mem : Mem) (object n : Nat)
    (hexec : ∀ i, i < n → os.is_executable (mem (slot (mem object) i)) = true)
    (hend : os.is_executable (mem (slot (mem object) n)) = false)
    (hfuel : n < fuel) :
    (∃ (r : Except VmtHook.Error VmtHook) (mem1 : Mem),
      VmtHook.create os allocate fuel mem object = some (r, mem1) ∧
      ∀ a, a ≠ object →
        (∀ data, allocate ((n + 1) * ptrSize) = .ok data →
          a < data ∨ data + (n + 1) * ptrSize ≤ a) →
        mem1 a = mem a) ∧
    (∀ (h : VmtHook) (a : Nat), a ≠ object → (h.apply mem object).2 a = mem a) := by
  constructor
  · cases hal : allocate ((n + 1) * ptrSize) with
    | error err =>
      refine ⟨_, _,
        create_error_eq os allocate fuel mem object n err hexec hend hfuel hal, ?_⟩
      intro a _ _
      rfl
    | ok data =>
      refine ⟨_, _, create_ok_eq os allocate fuel mem object n data hexec hend hfuel hal, ?_⟩
      intro a ha hout
      have hrange := hout data rfl
      have hslot : ∀ j, j ≤ n → a ≠ slot data j := by
        intro j hj hc
        simp only [slot, ptrSize] at hc hrange
        omega
      rw [Mem.write_other _ _ _ _ ha]
      rw [copyEntries_frame data (mem object) n _ a (fun j hj => hslot (j + 1) (by omega))]
      exact Mem.write_other _ _ _ _ (hslot 0 (Nat.zero_le n))
  · intro h a ha
    exact Mem.write_other _ _ _ _ ha

/-- Witness of C9: `create` and `apply` on the object at 100 of `memObjects`,
whose table has three methods; the object at 200 shares that table. -/
theorem C9_attach_writes_only_object_word_witness :
    (∃ (r : Except VmtHook.Error VmtHook) (mem1 : Mem),
      VmtHook.create osCode allocAt3000 10 memObjects 100 = some (r, mem1) ∧
      ∀ a, a ≠ 100 →
        (∀ data, allocAt3000 ((3 + 1) * ptrSize) = .ok data →
          a < data ∨ data + (3 + 1) * ptrSize ≤ a) →
        mem1 a = memObjects a) ∧
    (∀ (h : VmtHook) (a : Nat), a ≠ 100 → (h.apply memObjects 100).2 a = memObjects a) :=
  C9_attach_writes_only_object_word osCode allocAt3000 10 memObjects 100 3
    (by decide) (by decide) (by decide)

/-! ## Teardown twice -/

/-- C10: for every state of a table-patch hook, a table-duplication hook and a
single-slot handle, a second `VmtOriginalHook::reset`, `VmtHook::destroy` or
`VmHook::destroy` directly after the first returns exactly the hook state and
the memory that the first call left. -/
theorem C10_teardown_idempotent (os1 os2 : OS) (oh : VmtOriginalHook) (vh : VmtHook)
    (hk : VmHook) (mem : Mem) :
    VmtOriginalHook.reset os2 (oh.reset os1 mem).1 (oh.reset os1 mem).2 = oh.reset os1 mem ∧
    VmtHook.destroy os2 (vh.destroy os1 mem).1 (vh.destroy os1 mem).2 = vh.destroy os1 mem ∧
    VmHook.destroy (hk.destroy mem).1 (hk.destroy mem).2 = hk.destroy mem := by
  refine ⟨?_, rfl, ?_⟩
  · by_cases hn : oh.m_pVtable = nullptr
    · simp [VmtOriginalHook.reset, hn]
    · simp [VmtOriginalHook.reset, hn, resetLoop]
  · by_cases hn : hk.m_original_vm = nullptr
    · simp [VmHook.destroy, hn]
    · simp [VmHook.destroy, hn]

/-! ## VmtHook: attach and detach -/

theorem mapEmplace_of_none (m : List (Nat × Nat)) (k v : Nat) (hk : mapFind m k = none) :
    mapEmplace m k v = (k, v) :: m := by
  simp [mapEmplace, hk]

theorem mapFind_cons_self (m : List (Nat × Nat)) (k v : Nat) :
    mapFind ((k, v) :: m) k = some v := by
  simp [mapFind]

theorem mapErase_cons_self (m : List (Nat × Nat)) (k v : Nat) :
    mapErase ((k, v) :: m) k = m := by
  simp [mapErase]

theorem create_ok_shape (os : OS) (allocate : Nat → Except AllocatorError Nat) (fuel : Nat)
    (mem : Mem) (object : Nat) (hook : VmtHook) (mem1 : Mem)
    (hc : VmtHook.create os allocate fuel mem object = some (.ok hook, mem1)) :
    hook.m_objects = [(object, mem object)] ∧ mem1 object = slot hook.m_new_vmt 1 := by
  unfold VmtHook.create at hc
  dsimp only at hc
  split at hc
  · cases hc
  · split at hc
    · cases hc
    · cases hc
      exact ⟨rfl, Mem.write_same _ _ _⟩

theorem remove_tracked_live (os : OS) (h : VmtHook) (mem : Mem) (object v : Nat)
    (hrec : mapFind h.m_objects object = some v)
    (hw : os.vm_is_writable object ptrSize = true)
    (hlive : mem object = slot h.m_new_vmt 1) :
    h.remove os mem object
      = ({ h with m_objects := mapErase h.m_objects object }, mem.write object v) := by
  simp [VmtHook.remove, hrec, hw, hlive]

/-- C11: for a hook `h` and an object that is not attached and whose word is
writable, `apply(obj)` followed by `remove(obj)` (the word not written in
between, the rest of the memory arbitrary) gives the word its value before
`apply`, leaves `obj` untracked and the hook as it was, and every other object
keeps its recorded pointer and its word.  Likewise `remove(obj)` after a
successful `create(obj)` gives the word its value before `create` and leaves
nothing tracked. -/
theorem C11_attach_remove_round_trip (os osC : OS) (h : VmtHook) (mem mem2 : Mem) (obj : Nat)
    (hnew : mapFind h.m_objects obj = none)
    (hw : os.vm_is_writable obj ptrSize = true)
    (hsame : mem2 obj = (h.apply mem obj).2 obj) :
    ((h.apply mem obj).1.remove os mem2 obj).2 obj = mem obj ∧
    mapFind ((h.apply mem obj).1.remove os mem2 obj).1.m_objects obj = none ∧
    ((h.apply mem obj).1.remove os mem2 obj).1 = h ∧
    (∀ k, k ≠ obj →
      mapFind ((h.apply mem obj).1.remove os mem2 obj).1.m_objects k = mapFind h.m_objects k ∧
      ((h.apply mem obj).1.remove os mem2 obj).2 k = mem2 k) ∧
    (∀ (allocate : Nat → Except AllocatorError Nat) (fuel : Nat) (hook : VmtHook)
        (mem1 mem3 : Mem),
      VmtHook.create osC allocate fuel mem obj = some (.ok hook, mem1) →
      mem3 obj = mem1 obj →
      (hook.remove os mem3 obj).2 obj = mem obj ∧
      (hook.remove os mem3 obj).1.m_objects = [] ∧
      ∀ k, k ≠ obj → (hook.remove os mem3 obj).2 k = mem3 k) := by
  have happ : (h.apply mem obj).1
      = { h with m_objects := (obj, mem obj) :: h.m_objects } := by
    simp [VmtHook.apply, mapEmplace_of_none _ _ _ hnew]
  have hword : (h.apply mem obj).2 obj = slot h.m_new_vmt 1 := Mem.write_same _ _ _
  have hrem := remove_tracked_live os { h with m_objects := (obj, mem obj) :: h.m_objects }
    mem2 obj (mem obj) (mapFind_cons_self _ _ _) hw (by rw [hsame, hword])
  have hback : ({ h with m_objects := (obj, mem obj) :: h.m_objects } : VmtHook).remove os mem2 obj
      = (h, mem2.write obj (mem obj)) := by
    rw [hrem]
    simp only [mapErase_cons_self]
  rw [happ, hback]
  refine ⟨Mem.write_same _ _ _, hnew, rfl, ?_, ?_⟩
  · intro k hk
    exact ⟨rfl, Mem.write_other _ _ _ _ hk⟩
  · intro allocate fuel hook mem1 mem3 hc h3
    obtain ⟨hobj, hlive⟩ := create_ok_shape osC allocate fuel mem obj hook mem1 hc
    have hr := remove_tracked_live os hook mem3 obj (mem obj)
      (by rw [hobj]; exact mapFind_cons_self _ _ _) hw (by rw [h3, hlive])
    rw [hr, hobj]
    exact ⟨Mem.write_same _ _ _, mapErase_cons_self _ _ _,
      fun k hk => Mem.write_other _ _ _ _ hk⟩

/-- Witness of C11: the object at 200 attached by `apply` to the hook on the
object at 100 and removed again; the object at 100 attached by `create` and
removed again. -/
theorem C11_attach_remove_round_trip_witness :
    ((hookOn100.apply memCreated 200).1.remove osCode
        (hookOn100.apply memCreated 200).2 200).2 200 = memCreated 200 ∧
    (hookOn100.remove osCode memCreated 100).2 100 = memObjects 100 :=
  ⟨(C11_attach_remove_round_trip osCode osCode hookOn100 memCreated
      (hookOn100.apply memCreated 200).2 200 (by decide) (by decide) rfl).1,
   ((C11_attach_remove_round_trip osCode osCode {} memObjects
      (VmtHook.apply {} memObjects 100).2 100 (by decide) (by decide) rfl).2.2.2.2
      allocAt3000 10 hookOn100 memCreated memCreated rfl rfl).1⟩

/-! ## VmtOriginalHook: results of `remove` and `hook_method` -/

theorem eraseFirst_eq_find (index : Nat) (es : List VmtEntry_t) :
    eraseFirst index es
      = (es.find? (fun x => x.m_nIndex == index)).map
          (fun e => (e, es.eraseP (fun x => x.m_nIndex == index))) := by
  induction es with
  | nil => rfl
  | cons x xs ih =>
    by_cases hx : x.m_nIndex = index
    · rw [List.find?_cons_of_pos _ (by simpa using hx),
        List.eraseP_cons_of_pos (by simpa using hx)]
      simp [eraseFirst, hx]
    · rw [List.find?_cons_of_neg _ (by simpa using hx),
        List.eraseP_cons_of_neg (by simpa using hx)]
      simp only [eraseFirst, hx, if_false, ih]
      cases List.find? (fun x => x.m_nIndex == index) xs <;> rfl

/-- C12: `remove(index)` returns `BAD_VTABLE` when the hook has no table;
otherwise `BAD_VFUNC` when the protection change on the slot fails; otherwise
`NOT_FOUND` when no entry records `index`; otherwise success, with the slot set
to the recorded original of the (first) entry for `index` and that entry
erased.  In the three failure cases the hook and the memory are returned
unchanged, and success occurs exactly in the last case. -/
theorem C12_remove_result (os : OS) (h : VmtOriginalHook) (mem : Mem) (index : Nat) :
    (h.m_pVtable = nullptr → h.remove os mem index = (.error .BAD_VTABLE, h, mem)) ∧
    (h.m_pVtable ≠ nullptr → os.unprotect (tableSlot h.m_pVtable index) ptrSize = false →
      h.remove os mem index = (.error .BAD_VFUNC, h, mem)) ∧
    (h.m_pVtable ≠ nullptr → os.unprotect (tableSlot h.m_pVtable index) ptrSize = true →
      h.SearchVMT index = none →
      h.remove os mem index = (.error .NOT_FOUND, h, mem)) ∧
    (h.m_pVtable ≠ nullptr → os.unprotect (tableSlot h.m_pVtable index) ptrSize = true →
      ∀ e, h.SearchVMT index = some e →
      h.remove os mem index
        = (.ok (),
           { h with m_pHookEntries :=
               h.m_pHookEntries.eraseP (fun x => x.m_nIndex == index) },
           mem.write (tableSlot h.m_pVtable index) e.m_pOriginalFunc)) ∧
    ((h.remove os mem index).1 = .ok () ↔
      (h.m_pVtable ≠ nullptr ∧ os.unprotect (tableSlot h.m_pVtable index) ptrSize = true ∧
        (h.SearchVMT index).isSome = true)) := by
  refine ⟨?_, ?_, ?_, ?_, ?_⟩
  · intro hn
    simp [VmtOriginalHook.remove, hn]
  · intro hn hp
    simp [VmtOriginalHook.remove, hn, hp]
  · intro hn hp hs
    simp only [VmtOriginalHook.SearchVMT] at hs
    simp [VmtOriginalHook.remove, hn, hp, eraseFirst_eq_find, hs]
  · intro hn hp e hs
    simp only [VmtOriginalHook.SearchVMT] at hs
    simp [VmtOriginalHook.remove, hn, hp, eraseFirst_eq_find, hs]
  · by_cases hn : h.m_pVtable = nullptr
    · simp [VmtOriginalHook.remove, hn]
    · cases hp : os.unprotect (tableSlot h.m_pVtable index) ptrSize with
      | false => simp [VmtOriginalHook.remove, hn, hp]
      | true =>
        cases hs : List.find? (fun x => x.m_nIndex == index) h.m_pHookEntries with
        | none =>
          simp [VmtOriginalHook.remove, hn, hp, eraseFirst_eq_find, hs,
            VmtOriginalHook.SearchVMT]
        | some e =>
          simp [VmtOriginalHook.remove, hn, hp, eraseFirst_eq_find, hs,
            VmtOriginalHook.SearchVMT]

/-- Witness of C12: the four outcomes on a hook with one entry for slot 0. -/
theorem C12_remove_result_witness :
    VmtOriginalHook.remove osLocked1008 { m_pVtable := nullptr, m_pHookEntries := [⟨0, 5⟩] }
        memTable 0
      = (.error .BAD_VTABLE, { m_pVtable := nullptr, m_pHookEntries := [⟨0, 5⟩] }, memTable) ∧
    VmtOriginalHook.remove osLocked1008 { m_pVtable := 1000, m_pHookEntries := [⟨0, 5⟩] }
        memTable 1
      = (.error .BAD_VFUNC, { m_pVtable := 1000, m_pHookEntries := [⟨0, 5⟩] }, memTable) ∧
    VmtOriginalHook.remove osLocked1008 { m_pVtable := 1000, m_pHookEntries := [⟨0, 5⟩] }
        memTable 2
      = (.error .NOT_FOUND, { m_pVtable := 1000, m_pHookEntries := [⟨0, 5⟩] }, memTable) ∧
    (VmtOriginalHook.remove osLocked1008 { m_pVtable := 1000, m_pHookEntries := [⟨0, 5⟩] }
        (memTable.write 1000 77) 0).1 = .ok () :=
  ⟨(C12_remove_result osLocked1008 { m_pVtable := nullptr, m_pHookEntries := [⟨0, 5⟩] }
      memTable 0).1 rfl,
   (C12_remove_result osLocked1008 { m_pVtable := 1000, m_pHookEntries := [⟨0, 5⟩] }
      memTable 1).2.1 (by decide) (by decide),
   (C12_remove_result osLocked1008 { m_pVtable := 1000, m_pHookEntries := [⟨0, 5⟩] }
      memTable 2).2.2.1 (by decide) (by decide) (by decide),
   (C12_remove_result osLocked1008 { m_pVtable := 1000, m_pHookEntries := [⟨0, 5⟩] }
      (memTable.write 1000 77) 0).2.2.2.2.2 ⟨by decide, by decide, by decide⟩⟩

/-- C13: `hook_method(index, f)` fails with `BAD_VFUNC` exactly when the
protection change on the slot fails, and then returns the hook and the memory
unchanged; when the protection change succeeds it returns a handle whose
recorded original is the value the slot held just before the call and whose
new value is `f`, and the slot holds `f` afterwards. -/
theorem C13_hook_method_result (os : OS) (h : VmtOriginalHook) (mem : Mem) (index f : Nat) :
    ((h.hook_method os mem index f).1 = .error .BAD_VFUNC ↔
      os.unprotect (tableSlot h.m_pVtable index) ptrSize = false) ∧
    (os.unprotect (tableSlot h.m_pVtable index) ptrSize = false →
      h.hook_method os mem index f = (.error .BAD_VFUNC, h, mem)) ∧
    (os.unprotect (tableSlot h.m_pVtable index) ptrSize = true →
      (∃ hk, (h.hook_method os mem index f).1 = .ok hk ∧
        hk.m_original_vm = mem (tableSlot h.m_pVtable index) ∧ hk.m_new_vm = f) ∧
      (h.hook_method os mem index f).2.2 (tableSlot h.m_pVtable index) = f) := by
  cases hp : os.unprotect (tableSlot h.m_pVtable index) ptrSize with
  | false => simp [VmtOriginalHook.hook_method, hp]
  | true => simp [VmtOriginalHook.hook_method, hp, Mem.write_same]

/-- Witness of C13: slot 1 cannot be unprotected, slot 0 can. -/
theorem C13_hook_method_result_witness :
    hookAt1000.hook_method osLocked1008 memTable 1 77 = (.error .BAD_VFUNC, hookAt1000, memTable) ∧
    (hookAt1000.hook_method osLocked1008 memTable 0 77).2.2 (tableSlot hookAt1000.m_pVtable 0) = 77 :=
  ⟨(C13_hook_method_result osLocked1008 hookAt1000 memTable 1 77).2.1 (by decide),
   ((C13_hook_method_result osLocked1008 hookAt1000 memTable 0 77).2.2 (by decide)).2⟩

/-! ## VmtOriginalHook: best-effort reset -/

/-- C15: a handle that owns a slot (`m_original_vm` and `m_vmt_entry` both
non-null) writes the recorded original into the slot on `destroy`, whatever
the slot holds, and becomes empty; a handle with a null `m_original_vm`, in
particular the empty handle, writes nothing and is left as it is. -/
theorem C15_handle_release (h : VmHook) (mem : Mem) :
    (h.m_original_vm ≠ nullptr → h.m_vmt_entry ≠ nullptr →
      (h.destroy mem).2 = mem.write h.m_vmt_entry h.m_original_vm ∧
      (h.destroy mem).2 h.m_vmt_entry = h.m_original_vm ∧
      (h.destroy mem).1 = {}) ∧
    (h.m_original_vm = nullptr → h.destroy mem = (h, mem)) ∧
    VmHook.destroy {} mem = ({}, mem) := by
  refine ⟨?_, ?_, ?_⟩
  · intro ho he
    simp [VmHook.destroy, ho, he, Mem.write_same]
  · intro ho
    simp [VmHook.destroy, ho]
  · simp [VmHook.destroy]

/-- Witness of C15: a handle that owns slot 1000 (original 5, new 77). -/
theorem C15_handle_release_witness :
    (VmHook.destroy { m_original_vm := 5, m_new_vm := 77, m_vmt_entry := 1000 }
        (memTable.write 1000 99)).2 1000 = 5 ∧
    (VmHook.destroy { m_original_vm := 5, m_new_vm := 77, m_vmt_entry := 1000 }
        (memTable.write 1000 99)).1 = {} :=
  ⟨((C15_handle_release { m_original_vm := 5, m_new_vm := 77, m_vmt_entry := 1000 }
      (memTable.write 1000 99)).1 (by decide) (by decide)).2.1,
   ((C15_handle_release { m_original_vm := 5, m_new_vm := 77, m_vmt_entry := 1000 }
      (memTable.write 1000 99)).1 (by decide) (by decide)).2.2⟩

/-! ## VmtOriginalHook: creation -/

/-- C16: `VmtOriginalHook::create(addr)` returns `BAD_VTABLE` exactly when the
word in slot 0 of the table at `addr` is not an executable address; otherwise
it returns a hook on `addr` with no entries.  The function performs no store:
its embedding takes the memory and returns none. -/
theorem C16_create_validation (os : OS) (mem : Mem) (addr : Nat) :
    (VmtOriginalHook.create os mem addr = .error .BAD_VTABLE ↔
      os.is_executable (mem (slot addr 0)) = false) ∧
    (os.is_executable (mem (slot addr 0)) = true →
      VmtOriginalHook.create os mem addr = .ok { m_pVtable := addr, m_pHookEntries := [] }) ∧
    (∀ e, VmtOriginalHook.create os mem addr = .error e → e = .BAD_VTABLE) := by
  have h0 : slot addr 0 = addr := by simp [slot]
  rw [h0]
  cases hx : os.is_executable (mem addr) with
  | false => simp [VmtOriginalHook.create, hx]
  | true => simp [VmtOriginalHook.create, hx]

/-- Witness of C16: slot 0 of the table of `memObjects` holds 5001, an
executable address under `osCode`; the word at 992 holds 42, which is not. -/
theorem C16_create_validation_witness :
    VmtOriginalHook.create osCode memObjects 1000 = .ok { m_pVtable := 1000, m_pHookEntries := [] } ∧
    VmtOriginalHook.create osCode memObjects 992 = .error .BAD_VTABLE :=
  ⟨(C16_create_validation osCode memObjects 1000).2.1 (by decide),
   (C16_create_validation osCode memObjects 992).1.2 (by decide)⟩

/-! ## VmtHook: detaching an object that is not attached -/

/-- C17, counterexample: `remove(200)` on the hook that tracks only the object
at 100 returns the hook and the memory as they were, and that outcome is the
very outcome of the successful removal of the attached object at 200 from the
hook that tracks 200 and 100; `VmtHook::remove` returns no value that could
tell the two calls apart. -/
theorem C17_remove_untracked_not_reported :
    mapFind hookOn100.m_objects 200 = none ∧
    mapFind [(200, 1000), (100, 1000)] 200 = some 1000 ∧
    VmtHook.remove osCode hookOn100 ((memCreated.write 200 3008).write 200 1000) 200
      = (hookOn100, (memCreated.write 200 3008).write 200 1000) ∧
    VmtHook.remove osCode
        { m_objects := [(200, 1000), (100, 1000)], m_new_vmt_allocation := some 3000,
          m_new_vmt := 3000 }
        (memCreated.write 200 3008) 200
      = VmtHook.remove osCode hookOn100 ((memCreated.write 200 3008).write 200 1000) 200 :=
  ⟨by decide, by decide, rfl, rfl⟩

/-- C17, amended: `VmtHook::remove(object)` on an object with no active entry
is a silent no-op: it returns the hook and the memory unchanged (and, being
`void`, nothing else).  A missing entry is reported only by
`VmtOriginalHook::remove(index)`, which returns `NOT_FOUND` when the hook has a
table and the protection change succeeds. -/
theorem C17_remove_untracked_is_silent_noop (os : OS) (h : VmtHook) (mem : Mem) (object : Nat)
    (hnone : mapFind h.m_objects object = none) :
    h.remove os mem object = (h, mem) ∧
    (∀ (oh : VmtOriginalHook) (index : Nat), oh.m_pVtable ≠ nullptr →
      os.unprotect (tableSlot oh.m_pVtable index) ptrSize = true →
      oh.SearchVMT index = none →
      (oh.remove os mem index).1 = .error .NOT_FOUND) := by
  constructor
  · simp [VmtHook.remove, hnone]
  · intro oh index hn hp hs
    simp only [VmtOriginalHook.SearchVMT] at hs
    simp [VmtOriginalHook.remove, hn, hp, eraseFirst_eq_find, hs]

/-- Witness of C17 (amended): the object at 200 is not attached to the hook on
the object at 100. -/
theorem C17_remove_untracked_is_silent_noop_witness :
    hookOn100.remove osCode memCreated 200 = (hookOn100, memCreated) :=
  (C17_remove_untracked_is_silent_noop osCode hookOn100 memCreated 200 (by decide)).1

/-! ## VmtOriginalHook: one entry per slot -/

theorem unique_hook_method (os : OS) (h : VmtOriginalHook) (mem : Mem) (index f : Nat)
    (hu : UniqueEntries h) : UniqueEntries (h.hook_method os mem index f).2.1 := by
  unfold VmtOriginalHook.hook_method
  split
  · exact hu
  · dsimp only
    split
    · rename_i hnone
      have hfree : index ∉ h.m_pHookEntries.map VmtEntry_t.m_nIndex := by
        intro hc
        obtain ⟨e, he, hidx⟩ := List.mem_map.1 hc
        have := List.find?_eq_none.1 (Option.isNone_iff_eq_none.1 hnone) e he
        simp [hidx] at this
      simp only [UniqueEntries, List.map_cons, List.nodup_cons]
      exact ⟨hfree, hu⟩
    · exact hu

theorem unique_remove (os : OS) (h : VmtOriginalHook) (mem : Mem) (index : Nat)
    (hu : UniqueEntries h) : UniqueEntries (h.remove os mem index).2.1 := by
  unfold VmtOriginalHook.remove
  split
  · exact hu
  · split
    · exact hu
    · split
      · rename_i it rest he
        rw [eraseFirst_eq_find] at he
        cases hf : List.find? (fun x => x.m_nIndex == index) h.m_pHookEntries with
        | none => simp [hf] at he
        | some e =>
          simp only [hf, Option.map_some', Option.some.injEq, Prod.mk.injEq] at he
          obtain ⟨_, hrest⟩ := he
          simp only [UniqueEntries]
          rw [← hrest]
          exact List.Nodup.sublist ((List.eraseP_sublist _).map VmtEntry_t.m_nIndex) hu
      · exact hu

theorem unique_reset (os : OS) (h : VmtOriginalHook) (mem : Mem)
    (hu : UniqueEntries h) : UniqueEntries (h.reset os mem).1 := by
  unfold VmtOriginalHook.reset
  split
  · exact hu
  · exact List.nodup_nil

theorem unique_runCalls (os : OS) (calls : List HookCall) (s : VmtOriginalHook × Mem)
    (hu : UniqueEntries s.1) : UniqueEntries (runCalls os s calls).1 := by
  induction calls generalizing s with
  | nil => exact hu
  | cons c rest ih =>
    simp only [runCalls, List.foldl_cons]
    apply ih
    cases c with
    | hook_method index f => exact unique_hook_method os s.1 s.2 index f hu
    | remove index => exact unique_remove os s.1 s.2 index hu
    | reset => exact unique_reset os s.1 s.2 hu

/-- C18: in every state reached from a successful `VmtOriginalHook::create`
by a finite sequence of `hook_method`, `remove` and `reset` calls, the entry
collection holds at most one entry for each slot index. -/
theorem C18_unique_entry_per_slot (os : OS) (mem : Mem) (pVtable : Nat) (h : VmtOriginalHook)
    (calls : List HookCall)
    (hc : VmtOriginalHook.create os mem pVtable = .ok h) :
    UniqueEntries (runCalls os (h, mem) calls).1 := by
  have hh : h = { m_pVtable := pVtable, m_pHookEntries := [] } := by
    unfold VmtOriginalHook.create at hc
    dsimp only at hc
    split at hc
    · cases hc
    · cases hc
      rfl
  apply unique_runCalls
  subst hh
  exact List.nodup_nil

/-- Witness of C18: hooks on slots 0, 1, 0 again, an unhook, a reset and a
further hook. -/
theorem C18_unique_entry_per_slot_witness :
    UniqueEntries (runCalls osPermissive (hookAt1000, memTable)
      [.hook_method 0 77, .hook_method 1 88, .hook_method 0 99, .remove 1, .reset,
       .hook_method 2 66]).1 :=
  C18_unique_entry_per_slot osPermissive memTable 1000 hookAt1000
    [.hook_method 0 77, .hook_method 1 88, .hook_method 0 99, .remove 1, .reset,
     .hook_method 2 66] rfl

/-! ## VmtHook: attaching an object twice -/

theorem mapFind_of_mem (m : List (Nat × Nat)) (hwf : mapWF m) (k v : Nat)
    (hm : (k, v) ∈ m) : mapFind m k = some v := by
  induction m with
  | nil => exact absurd hm (List.not_mem_nil _)
  | cons p ps ih =>
    simp only [mapWF, List.map_cons, List.nodup_cons] at hwf
    by_cases hp : p.1 = k
    · rcases List.mem_cons.1 hm with h1 | h1
      · rw [← h1]
        exact mapFind_cons_self _ _ _
      · exact absurd (List.mem_map_of_mem Prod.fst h1) (hp ▸ hwf.1)
    · rcases List.mem_cons.1 hm with h1 | h1
      · exact absurd (by rw [← h1]) hp
      · have hrec := ih hwf.2 h1
        simp only [mapFind] at hrec ⊢
        rw [List.find?_cons_of_neg _ (by simpa using hp)]
        exact hrec

theorem destroyLoop_restores_one (os : OS) (nv : Nat) (l : List (Nat × Nat)) (mem : Mem)
    (hwf : mapWF l) (k v : Nat) (hm : (k, v) ∈ l)
    (hw : os.vm_is_writable k ptrSize = true) (hlive : mem k = slot nv 1) :
    destroyLoop os nv l mem k = v := by
  induction l generalizing mem with
  | nil => exact absurd hm (List.not_mem_nil _)
  | cons p ps ih =>
    obtain ⟨k2, v2⟩ := p
    simp only [mapWF, List.map_cons, List.nodup_cons] at hwf
    by_cases hk : k2 = k
    · subst hk
      have hv : v2 = v := by
        rcases List.mem_cons.1 hm with h1 | h1
        · exact (Prod.mk.inj h1).2.symm
        · exact absurd (List.mem_map_of_mem Prod.fst h1) hwf.1
      subst hv
      have hstep : destroyLoop os nv ((k2, v2) :: ps) mem
          = destroyLoop os nv ps (mem.write k2 v2) := by
        simp [destroyLoop, hw, hlive]
      rw [hstep, destroyLoop_frame os nv ps _ k2 hwf.1]
      exact Mem.write_same _ _ _
    · have hin : (k, v) ∈ ps := by
        rcases List.mem_cons.1 hm with h1 | h1
        · exact absurd (Prod.mk.inj h1).1.symm hk
        · exact h1
      have hkk : k ≠ k2 := fun hc => hk hc.symm
      unfold destroyLoop
      split
      · exact ih mem hwf.2 hin hlive
      · split
        · exact ih mem hwf.2 hin hlive
        · apply ih _ hwf.2 hin
          rw [Mem.write_other _ _ _ _ hkk]
          exact hlive

theorem reattach_restores (os : OS) (s : VmtHook × Mem) (obj v : Nat) (again : List Nat)
    (mem3 : Mem)
    (hwf : mapWF s.1.m_objects) (hm : (obj, v) ∈ s.1.m_objects)
    (hw : os.vm_is_writable obj ptrSize = true)
    (hlive : mem3 obj = slot s.1.m_new_vmt 1) :
    mapFind (applyAll s again).1.m_objects obj = some v ∧
    ((applyAll s again).1.remove os mem3 obj).2 obj = v ∧
    ((applyAll s again).1.destroy os mem3).2 obj = v := by
  have hwf2 := applyAll_wf again s hwf
  have hm2 := applyAll_mem again s (obj, v) hm
  have hnv := applyAll_new_vmt again s
  have hfind := mapFind_of_mem _ hwf2 obj v hm2
  refine ⟨hfind, ?_, ?_⟩
  · rw [remove_tracked_live os _ mem3 obj v hfind hw (by rw [hnv]; exact hlive)]
    exact Mem.write_same _ _ _
  · exact destroyLoop_restores_one os _ _ mem3 hwf2 obj v hm2 hw (by rw [hnv]; exact hlive)

/-- C19: after a first attachment of `obj` (by `apply` on a hook that does not
track it, or by `create`), a further `apply(obj)`, followed by any number of
further `apply` calls, leaves the pointer recorded for `obj` at the value its
word held before the first attachment; a later `remove(obj)` or `destroy`
(word writable and holding the address of slot 1 of the private table) gives
the word that value back. -/
theorem C19_reattach_keeps_original (os osC : OS) (h : VmtHook) (mem mem3 : Mem) (obj : Nat)
    (again : List Nat)
    (hwf : mapWF h.m_objects)
    (hnew : mapFind h.m_objects obj = none)
    (hw : os.vm_is_writable obj ptrSize = true)
    (hlive : mem3 obj = slot h.m_new_vmt 1) :
    mapFind (applyAll (h.apply mem obj) (obj :: again)).1.m_objects obj = some (mem obj) ∧
    ((applyAll (h.apply mem obj) (obj :: again)).1.remove os mem3 obj).2 obj = mem obj ∧
    ((applyAll (h.apply mem obj) (obj :: again)).1.destroy os mem3).2 obj = mem obj ∧
    (∀ (allocate : Nat → Except AllocatorError Nat) (fuel : Nat) (hook : VmtHook)
        (mem1 mem4 : Mem),
      VmtHook.create osC allocate fuel mem obj = some (.ok hook, mem1) →
      mem4 obj = slot hook.m_new_vmt 1 →
      mapFind (applyAll (hook, mem1) (obj :: again)).1.m_objects obj = some (mem obj) ∧
      ((applyAll (hook, mem1) (obj :: again)).1.remove os mem4 obj).2 obj = mem obj ∧
      ((applyAll (hook, mem1) (obj :: again)).1.destroy os mem4).2 obj = mem obj) := by
  have h1 : (h.apply mem obj).1.m_objects = (obj, mem obj) :: h.m_objects := by
    simp [VmtHook.apply, mapEmplace_of_none _ _ _ hnew]
  have hwf1 : mapWF (h.apply mem obj).1.m_objects := mapEmplace_wf _ _ _ hwf
  have hfirst := reattach_restores os (h.apply mem obj) obj (mem obj) (obj :: again) mem3
    hwf1 (by rw [h1]; exact List.mem_cons_self _ _) hw hlive
  refine ⟨hfirst.1, hfirst.2.1, hfirst.2.2, ?_⟩
  intro allocate fuel hook mem1 mem4 hc h4
  obtain ⟨hobj, _⟩ := create_ok_shape osC allocate fuel mem obj hook mem1 hc
  exact reattach_restores os (hook, mem1) obj (mem obj) (obj :: again) mem4
    (by simp [mapWF, hobj]) (by simp [hobj]) hw h4

/-- Witness of C19: the object at 200 attached to the hook on the object at
100, attached again (and the object at 300 after it), then removed; and the
object at 100, attached by `create`, attached again and removed. -/
theorem C19_reattach_keeps_original_witness :
    ((applyAll (hookOn100.apply memCreated 200) [200, 300]).1.remove osCode
        (applyAll (hookOn100.apply memCreated 200) [200, 300]).2 200).2 200
      = memCreated 200 ∧
    ((applyAll (hookOn100, memCreated) [100]).1.remove osCode
        (applyAll (hookOn100, memCreated) [100]).2 100).2 100 = memObjects 100 :=
  ⟨(C19_reattach_keeps_original osCode osCode hookOn100 memCreated
      (applyAll (hookOn100.apply memCreated 200) [200, 300]).2 200 [300]
      (by decide) (by decide) (by decide) (by decide)).2.1,
   ((C19_reattach_keeps_original osCode osCode {} memObjects
      (memObjects.write 100 8) 100 []
      (by decide) (by decide) (by decide) (by decide)).2.2.2
      allocAt3000 10 hookOn100 memCreated (applyAll (hookOn100, memCreated) [100]).2
      rfl (by decide)).2.1⟩

/-! ## VmtOriginalHook: frame of `hook_method` and `remove` -/

theorem eraseP_filter_others (index : Nat) (es : List VmtEntry_t) :
    (es.eraseP (fun x => x.m_nIndex == index)).filter (fun e => e.m_nIndex != index)
      = es.filter (fun e => e.m_nIndex != index) := by
  induction es with
  | nil => rfl
  | cons x xs ih =>
    by_cases hx : x.m_nIndex = index
    · rw [List.eraseP_cons_of_pos (by simpa using hx)]
      simp [List.filter_cons, hx]
    · rw [List.eraseP_cons_of_neg (by simpa using hx)]
      simp [List.filter_cons, hx, ih]

/-- C20: whether it succeeds or fails, `hook_method(i, f)` changes no word
other than slot `i` of the table, and the entries whose index differs from `i`
are the same, in the same order, before and after the call; likewise for
`remove(i)`. -/
theorem C20_hook_unhook_frame (os : OS) (h : VmtOriginalHook) (mem : Mem) (i f : Nat) :
    (∀ a, a ≠ tableSlot h.m_pVtable i → (h.hook_method os mem i f).2.2 a = mem a) ∧
    (h.hook_method os mem i f).2.1.m_pHookEntries.filter (fun e => e.m_nIndex != i)
      = h.m_pHookEntries.filter (fun e => e.m_nIndex != i) ∧
    (h.hook_method os mem i f).2.1.m_pVtable = h.m_pVtable ∧
    (∀ a, a ≠ tableSlot h.m_pVtable i → (h.remove os mem i).2.2 a = mem a) ∧
    (h.remove os mem i).2.1.m_pHookEntries.filter (fun e => e.m_nIndex != i)
      = h.m_pHookEntries.filter (fun e => e.m_nIndex != i) ∧
    (h.remove os mem i).2.1.m_pVtable = h.m_pVtable := by
  refine ⟨fun a ha => hook_method_mem_other os h mem i f a ha, ?_,
    hook_method_table os h mem i f, ?_, ?_, ?_⟩
  · unfold VmtOriginalHook.hook_method
    split
    · rfl
    · dsimp only
      split
      · simp [List.filter_cons]
      · rfl
  · intro a ha
    unfold VmtOriginalHook.remove
    split
    · rfl
    · split
      · rfl
      · split
        · exact Mem.write_other _ _ _ _ ha
        · rfl
  · unfold VmtOriginalHook.remove
    split
    · rfl
    · split
      · rfl
      · split
        · rename_i it rest he
          rw [eraseFirst_eq_find] at he
          cases hf : List.find? (fun x => x.m_nIndex == i) h.m_pHookEntries with
          | none => simp [hf] at he
          | some e =>
            simp only [hf, Option.map_some', Option.some.injEq, Prod.mk.injEq] at he
            obtain ⟨_, hrest⟩ := he
            dsimp only
            rw [← hrest]
            exact eraseP_filter_others i _
        · rfl
  · unfold VmtOriginalHook.remove
    split
    · rfl
    · split
      · rfl
      · split <;> rfl

/-- Witness of C20: on a hook with entries for slots 1 and 0, hooking and
unhooking slot 1 leaves slot 0 and the entry for slot 0 alone. -/
theorem C20_hook_unhook_frame_witness :
    (VmtOriginalHook.remove osPermissive { m_pVtable := 1000, m_pHookEntries := [⟨1, 6⟩, ⟨0, 5⟩] }
        ((memTable.write 1000 77).write 1008 88) 1).2.2 (tableSlot 1000 0) = 77 ∧
    (VmtOriginalHook.remove osPermissive { m_pVtable := 1000, m_pHookEntries := [⟨1, 6⟩, ⟨0, 5⟩] }
        ((memTable.write 1000 77).write 1008 88) 1).2.1.m_pHookEntries.filter
          (fun e => e.m_nIndex != 1) = [⟨0, 5⟩] :=
  ⟨(C20_hook_unhook_frame osPermissive { m_pVtable := 1000, m_pHookEntries := [⟨1, 6⟩, ⟨0, 5⟩] }
      ((memTable.write 1000 77).write 1008 88) 1 0).2.2.2.1 (tableSlot 1000 0) (by decide),
   (C20_hook_unhook_frame osPermissive { m_pVtable := 1000, m_pHookEntries := [⟨1, 6⟩, ⟨0, 5⟩] }
      ((memTable.write 1000 77).write 1008 88) 1 0).2.2.2.2.1⟩

end safetyhook
